import Mathlib

/-!
# SecurePassVault: encryption at rest

A shallow embedding of `server/utils/cryptoUtils.js` (`deriveKey`, `encryptText`,
`decryptText`) and of the credential routes of `server/routes/credentials.js`.

Conventions of the embedding:

* a `Buffer` is a list of bytes, a JavaScript string is a list of UTF-16 code units;
* the primitives of the platform that the source only calls (the AES-256 block
  permutation, `jwt.verify`, `crypto.pbkdf2Sync`) are parameters, bundled with the
  laws the proofs rely on; `crypto.randomBytes(16)` is an explicit argument;
* an exception is a value of `Except`.
-/

namespace SecurePassVault

/-! ## Bytes, buffers and JavaScript strings -/

/-- One octet of a `Buffer`. -/
abbrev Byte := Fin 256

/-- A Node `Buffer`. -/
abbrev Buffer := List Byte

/-- One UTF-16 code unit of a JavaScript string. -/
abbrev CodeUnit := Fin 65536

/-- A JavaScript string: a sequence of UTF-16 code units (surrogates need not be paired). -/
abbrev JSString := List CodeUnit

/-- The octet with value `n % 256`. -/
def byte (n : Nat) : Byte := ⟨n % 256, Nat.mod_lt _ (by decide)⟩

/-- The code unit with value `n % 65536`. -/
def unit16 (n : Nat) : CodeUnit := ⟨n % 65536, Nat.mod_lt _ (by decide)⟩

/-- Bytewise exclusive or of two buffers, as CBC chaining applies it to two blocks. -/
def xorBytes (a b : Buffer) : Buffer :=
  List.zipWith (fun x y => byte (x.val ^^^ y.val)) a b

/-! ## Hexadecimal encoding (`buf.toString('hex')`, `Buffer.from(s, 'hex')`) -/

/-- The lowercase hexadecimal digit of a nibble. -/
def hexDigit (n : Nat) : CodeUnit :=
  if n < 10 then unit16 (48 + n) else unit16 (87 + n)

/-- `buf.toString('hex')`: two lowercase digits per byte. -/
def hexEncode : Buffer → JSString
  | [] => []
  | b :: bs => hexDigit (b.val / 16) :: hexDigit (b.val % 16) :: hexEncode bs

/-- The value of a hexadecimal digit, of either case; `none` for any other code unit. -/
def hexValue (c : CodeUnit) : Option Nat :=
  if 48 ≤ c.val ∧ c.val ≤ 57 then some (c.val - 48)
  else if 97 ≤ c.val ∧ c.val ≤ 102 then some (c.val - 87)
  else if 65 ≤ c.val ∧ c.val ≤ 70 then some (c.val - 55)
  else none

/-- The value the hexadecimal decoder of Node gives a code unit of its input: the decoder
reads the low byte of the unit only (its `unhex` takes a `uint8_t`), so that U+0161 is
read as `a` and U+0137 as `7`. -/
def unhex (c : CodeUnit) : Option Nat := hexValue (unit16 (c.val % 256))

/-- `Buffer.from(s, 'hex')`: decodes pairs of code units, each unit read by `unhex`, and
stops at the first pair that is not two hexadecimal digits (a trailing single character
is dropped). -/
def hexDecode : JSString → Buffer
  | c :: d :: rest =>
    match unhex c, unhex d with
    | some hi, some lo => byte (16 * hi + lo) :: hexDecode rest
    | _, _ => []
  | _ => []

/-- A lowercase hexadecimal character, `[0-9a-f]`. -/
def isLowerHex (c : CodeUnit) : Bool :=
  (48 ≤ c.val && c.val ≤ 57) || (97 ≤ c.val && c.val ≤ 102)

/-! ## UTF-16 and UTF-8 -/

/-- A high (leading) surrogate code unit. -/
def isHighSurrogate (u : CodeUnit) : Bool := 0xD800 ≤ u.val && u.val ≤ 0xDBFF

/-- A low (trailing) surrogate code unit. -/
def isLowSurrogate (u : CodeUnit) : Bool := 0xDC00 ≤ u.val && u.val ≤ 0xDFFF

/-- The code points of a JavaScript string: a surrogate pair is one code point, an
unpaired surrogate is read as U+FFFD (what the `'utf8'` encoder of Node does). -/
def utf16Decode : JSString → List Nat
  | [] => []
  | [u] => if isHighSurrogate u || isLowSurrogate u then [0xFFFD] else [u.val]
  | u :: v :: rest =>
    if isHighSurrogate u then
      if isLowSurrogate v then
        (0x10000 + (u.val - 0xD800) * 0x400 + (v.val - 0xDC00)) :: utf16Decode rest
      else 0xFFFD :: utf16Decode (v :: rest)
    else if isLowSurrogate u then 0xFFFD :: utf16Decode (v :: rest)
    else u.val :: utf16Decode (v :: rest)

/-- `String.prototype.isWellFormed`: no unpaired surrogate. -/
def isWellFormed : JSString → Bool
  | [] => true
  | [u] => !(isHighSurrogate u || isLowSurrogate u)
  | u :: v :: rest =>
    if isHighSurrogate u then isLowSurrogate v && isWellFormed rest
    else if isLowSurrogate u then false
    else isWellFormed (v :: rest)

/-- The UTF-16 code units of one code point. -/
def utf16EncodeCodePoint (cp : Nat) : JSString :=
  if cp < 0x10000 then [unit16 cp]
  else [unit16 (0xD800 + (cp - 0x10000) / 0x400), unit16 (0xDC00 + (cp - 0x10000) % 0x400)]

/-- The JavaScript string of a list of code points. -/
def utf16Encode (cps : List Nat) : JSString :=
  cps.flatMap utf16EncodeCodePoint

/-- The UTF-8 bytes of one code point. -/
def utf8EncodeCodePoint (cp : Nat) : Buffer :=
  if cp < 0x80 then [byte cp]
  else if cp < 0x800 then [byte (0xC0 + cp / 0x40), byte (0x80 + cp % 0x40)]
  else if cp < 0x10000 then
    [byte (0xE0 + cp / 0x1000), byte (0x80 + cp / 0x40 % 0x40), byte (0x80 + cp % 0x40)]
  else
    [byte (0xF0 + cp / 0x40000), byte (0x80 + cp / 0x1000 % 0x40),
     byte (0x80 + cp / 0x40 % 0x40), byte (0x80 + cp % 0x40)]

/-- `Buffer.from(s, 'utf8')`: the UTF-8 bytes of a JavaScript string. -/
def utf8Encode (s : JSString) : Buffer :=
  (utf16Decode s).flatMap utf8EncodeCodePoint

/-- The state of a streaming UTF-8 decoder (Node's `StringDecoder`, which follows the
decoder of the Encoding Standard): how many continuation bytes are still expected, the
bits of the code point read so far, and the range allowed for the next byte. -/
structure Utf8State where
  needed : Nat
  codePoint : Nat
  lower : Nat
  upper : Nat
  deriving DecidableEq, Repr

/-- The decoder at a character boundary. -/
def Utf8State.init : Utf8State := { needed := 0, codePoint := 0, lower := 0x80, upper := 0xBF }

/-- The decoder reads a byte at a character boundary. -/
def utf8Start (b : Byte) : Utf8State × List Nat :=
  if b.val ≤ 0x7F then (Utf8State.init, [b.val])
  else if 0xC2 ≤ b.val ∧ b.val ≤ 0xDF then
    ({ needed := 1, codePoint := b.val - 0xC0, lower := 0x80, upper := 0xBF }, [])
  else if 0xE0 ≤ b.val ∧ b.val ≤ 0xEF then
    ({ needed := 2, codePoint := b.val - 0xE0,
       lower := if b.val = 0xE0 then 0xA0 else 0x80,
       upper := if b.val = 0xED then 0x9F else 0xBF }, [])
  else if 0xF0 ≤ b.val ∧ b.val ≤ 0xF4 then
    ({ needed := 3, codePoint := b.val - 0xF0,
       lower := if b.val = 0xF0 then 0x90 else 0x80,
       upper := if b.val = 0xF4 then 0x8F else 0xBF }, [])
  else (Utf8State.init, [0xFFFD])

/-- The decoder reads one byte: the new state and the code points it emits. A byte that
cannot continue the pending sequence ends it with U+FFFD and is read again as a start. -/
def utf8Step (st : Utf8State) (b : Byte) : Utf8State × List Nat :=
  if st.needed = 0 then utf8Start b
  else if b.val < st.lower ∨ st.upper < b.val then
    ((utf8Start b).1, 0xFFFD :: (utf8Start b).2)
  else if st.needed = 1 then (Utf8State.init, [st.codePoint * 0x40 + (b.val - 0x80)])
  else ({ needed := st.needed - 1, codePoint := st.codePoint * 0x40 + (b.val - 0x80),
          lower := 0x80, upper := 0xBF }, [])

/-- The decoder reads a chunk: the state it is left in and the code points of the
characters completed by the chunk. -/
def utf8Run (st : Utf8State) : Buffer → Utf8State × List Nat
  | [] => (st, [])
  | b :: bs => ((utf8Run (utf8Step st b).1 bs).1, (utf8Step st b).2 ++ (utf8Run (utf8Step st b).1 bs).2)

/-- `decoder.write(buf)`: the text of the characters completed by `buf`; an incomplete
trailing character is kept in the state. -/
def StringDecoder.write (st : Utf8State) (buf : Buffer) : Utf8State × JSString :=
  ((utf8Run st buf).1, utf16Encode (utf8Run st buf).2)

/-- `decoder.end(buf)`: the text of `buf`, then U+FFFD for a character left incomplete. -/
def StringDecoder.end (st : Utf8State) (buf : Buffer) : JSString :=
  (StringDecoder.write st buf).2 ++
    (if (StringDecoder.write st buf).1.needed = 0 then [] else [unit16 0xFFFD])

/-- `buf.toString('utf8')`: a whole buffer decoded at once. -/
def utf8Decode (buf : Buffer) : JSString := StringDecoder.end Utf8State.init buf

/-- A Unicode scalar value: a code point that is not a surrogate. -/
def IsScalar (cp : Nat) : Prop := cp < 0x110000 ∧ ¬ (0xD800 ≤ cp ∧ cp ≤ 0xDFFF)

instance (cp : Nat) : Decidable (IsScalar cp) := by
  unfold IsScalar
  infer_instance

/-- The least second byte allowed after the lead byte `b0` (no overlong forms). -/
def secondLower (b0 : Byte) : Nat :=
  if b0.val = 0xE0 then 0xA0 else if b0.val = 0xF0 then 0x90 else 0x80

/-- The greatest second byte allowed after the lead byte `b0` (no surrogates, nothing
above U+10FFFF). -/
def secondUpper (b0 : Byte) : Nat :=
  if b0.val = 0xED then 0x9F else if b0.val = 0xF4 then 0x8F else 0xBF

/-! ## The block cipher and the cipher objects of `crypto` -/

/-- The AES-256 block cipher the source asks `crypto` for (`'aes-256-cbc'`): a family of
permutations of the 16-byte blocks, one for each 32-byte key. -/
structure BlockCipher where
  encryptBlock : Buffer → Buffer → Buffer
  decryptBlock : Buffer → Buffer → Buffer
  encryptBlock_length : ∀ key block, key.length = 32 → block.length = 16 →
    (encryptBlock key block).length = 16
  decryptBlock_length : ∀ key block, key.length = 32 → block.length = 16 →
    (decryptBlock key block).length = 16
  decrypt_encrypt : ∀ key block, key.length = 32 → block.length = 16 →
    decryptBlock key (encryptBlock key block) = block
  encrypt_decrypt : ∀ key block, key.length = 32 → block.length = 16 →
    encryptBlock key (decryptBlock key block) = block

/-- What `crypto` throws in the calls the source makes. -/
inductive CryptoFault where
  | invalidIV
  | invalidKeyLength
  | invalidHexLength
  | wrongFinalBlockLength
  | badDecrypt
  deriving DecidableEq, Repr

/-- The errors the three functions of `cryptoUtils.js` throw, with the fault they wrap
in their message. -/
inductive VaultError where
  | keyDerivationFailed
  | encryptionFailed (cause : CryptoFault)
  | decryptionFailed (cause : CryptoFault)
  deriving DecidableEq, Repr

/-- The message of the `Error` thrown, given how the platform words its own faults:
`'Key derivation failed'`, `'Encryption failed: ' + error.message`,
`'Decryption failed: ' + error.message`. -/
def VaultError.message (faultMessage : CryptoFault → String) : VaultError → String
  | .keyDerivationFailed => "Key derivation failed"
  | .encryptionFailed cause => "Encryption failed: " ++ faultMessage cause
  | .decryptionFailed cause => "Decryption failed: " ++ faultMessage cause

/-- A `Cipher` or `Decipher` object in CBC mode: the key, the chaining block (the IV at
first) and the input bytes not yet processed. -/
structure CipherState where
  key : Buffer
  chain : Buffer
  pending : Buffer
  deriving DecidableEq, Repr

/-- `crypto.createCipheriv('aes-256-cbc', key, iv)` and `crypto.createDecipheriv`: the
length of the IV is checked first, then the length of the key. -/
def createCipheriv (key iv : Buffer) : Except CryptoFault CipherState :=
  if iv.length ≠ 16 then .error .invalidIV
  else if key.length ≠ 32 then .error .invalidKeyLength
  else .ok { key := key, chain := iv, pending := [] }

/-- CBC encryption of the first `n` blocks of `data`: the ciphertext and the last
chaining block. -/
def cbcEncryptBlocks (E : BlockCipher) (key : Buffer) : Nat → Buffer → Buffer → Buffer × Buffer
  | 0, chain, _ => ([], chain)
  | n + 1, chain, data =>
    let c := E.encryptBlock key (xorBytes (data.take 16) chain)
    (c ++ (cbcEncryptBlocks E key n c (data.drop 16)).1,
     (cbcEncryptBlocks E key n c (data.drop 16)).2)

/-- `cipher.update(data)`: encrypts the complete blocks, keeps the rest pending. -/
def CipherState.update (E : BlockCipher) (c : CipherState) (data : Buffer) :
    CipherState × Buffer :=
  let all := c.pending ++ data
  let n := all.length / 16
  ({ c with chain := (cbcEncryptBlocks E c.key n c.chain all).2, pending := all.drop (16 * n) },
   (cbcEncryptBlocks E c.key n c.chain all).1)

/-- The PKCS#7 padding of a partial block. -/
def pkcs7Pad (lastBytes : Buffer) : Buffer :=
  lastBytes ++ List.replicate (16 - lastBytes.length) (byte (16 - lastBytes.length))

/-- `cipher.final()`: pads the pending bytes to a block and encrypts it. -/
def CipherState.final (E : BlockCipher) (c : CipherState) : Buffer :=
  E.encryptBlock c.key (xorBytes (pkcs7Pad c.pending) c.chain)

/-- CBC decryption of the first `n` blocks of `data`: the plaintext and the last
chaining block. -/
def cbcDecryptBlocks (E : BlockCipher) (key : Buffer) : Nat → Buffer → Buffer → Buffer × Buffer
  | 0, chain, _ => ([], chain)
  | n + 1, chain, data =>
    (xorBytes (E.decryptBlock key (data.take 16)) chain ++
       (cbcDecryptBlocks E key n (data.take 16) (data.drop 16)).1,
     (cbcDecryptBlocks E key n (data.take 16) (data.drop 16)).2)

/-- `decipher.update(data)`: decrypts the complete blocks but holds the last one back,
since it may carry the padding. -/
def CipherState.decipherUpdate (E : BlockCipher) (d : CipherState) (data : Buffer) :
    CipherState × Buffer :=
  let all := d.pending ++ data
  let n := (all.length - 1) / 16
  ({ d with chain := (cbcDecryptBlocks E d.key n d.chain all).2, pending := all.drop (16 * n) },
   (cbcDecryptBlocks E d.key n d.chain all).1)

/-- Removal of the PKCS#7 padding of the last block: its last byte `v` must satisfy
`1 ≤ v ≤ 16` and the last `v` bytes must all be `v`. -/
def pkcs7Unpad (block : Buffer) : Except CryptoFault Buffer :=
  match block.getLast? with
  | none => .error .badDecrypt
  | some v =>
    if v.val = 0 ∨ 16 < v.val then .error .badDecrypt
    else if (block.drop (block.length - v.val)).all (fun b => b = v) then
      .ok (block.take (block.length - v.val))
    else .error .badDecrypt

/-- `decipher.final()`: the block held back must be complete and end in valid padding. -/
def CipherState.decipherFinal (E : BlockCipher) (d : CipherState) : Except CryptoFault Buffer :=
  if d.pending.length ≠ 16 then .error .wrongFinalBlockLength
  else pkcs7Unpad (xorBytes (E.decryptBlock d.key d.pending) d.chain)

/-- The claim's "valid PKCS#7 padding" of a block: its last byte `v` satisfies
`1 ≤ v ≤ 16` and the last `v` bytes are all equal to `v`. -/
def hasValidPadding (block : Buffer) : Bool :=
  match block.getLast? with
  | none => false
  | some v =>
    decide (1 ≤ v.val) && decide (v.val ≤ 16) &&
      (block.drop (block.length - v.val)).all (fun b => b = v)

/-- The claim's "CBC-decrypted final block" of a ciphertext: its last 16 bytes,
decrypted under the key and xored with the 16 bytes before them, or with the IV when
the ciphertext is a single block. -/
def cbcFinalBlock (E : BlockCipher) (key iv ct : Buffer) : Buffer :=
  xorBytes (E.decryptBlock key (ct.drop (ct.length - 16)))
    (if ct.length ≤ 16 then iv else (ct.drop (ct.length - 32)).take 16)

/-- How `decipher.update(data, 'hex', 'utf8')` reads its input: a string of odd length
is rejected, any other string is decoded as `Buffer.from(data, 'hex')` decodes it. -/
def decodeCiphertext (data : JSString) : Option Buffer :=
  if data.length % 2 ≠ 0 then none else some (hexDecode data)

/-! ## `server/utils/cryptoUtils.js` -/

/-- The value `encryptText` returns: `{ encrypted, iv }`, both hexadecimal strings. -/
structure Envelope where
  encrypted : JSString
  iv : JSString
  deriving DecidableEq, Repr

/-- `encryptText(text, key)`, with the 16 bytes that `crypto.randomBytes(16)` returns in
this call as the argument `randomBytes`. -/
def encryptText (E : BlockCipher) (text : JSString) (key : Buffer) (randomBytes : Buffer) :
    Except VaultError Envelope :=
  let iv := randomBytes
  match createCipheriv key iv with
  | .error e => .error (.encryptionFailed e)
  | .ok cipher =>
    let encrypted := hexEncode (cipher.update E (utf8Encode text)).2
    let encrypted := encrypted ++ hexEncode ((cipher.update E (utf8Encode text)).1.final E)
    .ok { encrypted := encrypted, iv := hexEncode iv }

/-- `decryptText(encryptedData, iv, key)`. `decipher.update(data, 'hex', 'utf8')` rejects a
hexadecimal string of odd length; the two pieces of text come from one `StringDecoder`,
so a character split between `update` and `final` is decoded whole. -/
def decryptText (E : BlockCipher) (encryptedData iv : JSString) (key : Buffer) :
    Except VaultError JSString :=
  match createCipheriv key (hexDecode iv) with
  | .error e => .error (.decryptionFailed e)
  | .ok decipher =>
    if encryptedData.length % 2 ≠ 0 then .error (.decryptionFailed .invalidHexLength)
    else
      let updated := decipher.decipherUpdate E (hexDecode encryptedData)
      let written := StringDecoder.write Utf8State.init updated.2
      match updated.1.decipherFinal E with
      | .error e => .error (.decryptionFailed e)
      | .ok last => .ok (written.2 ++ StringDecoder.end written.1 last)

/-- The payload of a session token, as `routes/auth.js` signs it: `{ user: { id } }`
with the issue and expiry times that `jwt.sign` adds. -/
structure JwtPayload where
  userId : JSString
  iat : Nat
  exp : Nat
  deriving DecidableEq, Repr

/-- The hash functions `crypto.pbkdf2Sync` is asked for. -/
inductive Digest where
  | sha256
  deriving DecidableEq, Repr

/-- The two library functions `deriveKey` calls: `jwt.verify(token, secret)` at the time
`now` (`none` when it throws: malformed token, wrong signature, expired), and
`crypto.pbkdf2Sync(password, salt, iterations, keylen, digest)`, whose result has
`keylen` bytes. -/
structure KeyLib where
  jwtVerify : JSString → JSString → Nat → Option JwtPayload
  pbkdf2Sync : Buffer → Buffer → Nat → Nat → Digest → Buffer
  pbkdf2Sync_length : ∀ password salt iterations keylen digest,
    (pbkdf2Sync password salt iterations keylen digest).length = keylen

/-- `s.padStart(n, fill)` for a one-character `fill`. -/
def padStart (s : JSString) (n : Nat) (fill : CodeUnit) : JSString :=
  List.replicate (n - s.length) fill ++ s

/-- `s.slice(0, n)`. -/
def slice (s : JSString) (n : Nat) : JSString := s.take n

/-- The salt of `deriveKey`: `Buffer.from(userId.padStart(32, '0').slice(0, 32), 'utf8')`. -/
def deriveSalt (userId : JSString) : Buffer :=
  utf8Encode (slice (padStart userId 32 (unit16 48)) 32)

/-- `deriveKey(token, userId)`, with `process.env.JWT_SECRET` as `secret` and the time of
the call as `now`. Any exception inside the `try` becomes "Key derivation failed". -/
def deriveKey (lib : KeyLib) (secret : JSString) (now : Nat) (token userId : JSString) :
    Except VaultError Buffer :=
  match lib.jwtVerify token secret now with
  | none => .error .keyDerivationFailed
  | some _decoded =>
    let salt := deriveSalt userId
    let keyMaterial := secret ++ userId
    let key := lib.pbkdf2Sync (utf8Encode keyMaterial) salt 100000 32 .sha256
    .ok key

/-! ## `server/models/Credential.js` and `server/routes/credentials.js` -/

/-- The code units `String.prototype.trim` removes: the white space and line
terminators of ECMAScript. -/
def isWhiteSpace (c : CodeUnit) : Bool :=
  (0x09 ≤ c.val && c.val ≤ 0x0D) || c.val = 0x20 || c.val = 0xA0 || c.val = 0x1680 ||
  (0x2000 ≤ c.val && c.val ≤ 0x200A) || c.val = 0x2028 || c.val = 0x2029 ||
  c.val = 0x202F || c.val = 0x205F || c.val = 0x3000 || c.val = 0xFEFF

/-- `s.trim()`. -/
def trim (s : JSString) : JSString :=
  ((s.dropWhile isWhiteSpace).reverse.dropWhile isWhiteSpace).reverse

/-- An `ObjectId`, written as its 24 lowercase hexadecimal digits. -/
abbrev ObjectId := JSString

/-- Mongoose casts a string of 24 hexadecimal digits to an `ObjectId`; any other string
is a cast error. -/
def castObjectId (s : JSString) : Option ObjectId :=
  if s.length = 24 ∧ s.all (fun c => (hexValue c).isSome) then
    some (s.map fun c => if 65 ≤ c.val ∧ c.val ≤ 70 then unit16 (c.val + 32) else c)
  else none

/-- A document of the `Credential` collection, with the fields of `credentialSchema`
(the timestamps, which no route reads, are left out). -/
structure CredentialDoc where
  _id : ObjectId
  userId : ObjectId
  website : JSString
  username : JSString
  passwordEncrypted : JSString
  iv : JSString
  tags : List JSString
  deriving DecidableEq, Repr

/-- The `Credential` collection. -/
abbrev Collection := List CredentialDoc

/-- The fields a route hands to Mongoose, before casting: `userId` still a string, the
tags possibly absent. -/
structure CredentialInput where
  userId : JSString
  website : JSString
  username : JSString
  passwordEncrypted : JSString
  iv : JSString
  tags : Option (List JSString)
  deriving DecidableEq, Repr

/-- Casting and validation by `credentialSchema`: `userId` is cast to an `ObjectId`,
`website`, `username` and every tag are trimmed, absent tags become `[]`, and the four
required strings must not be empty. `none` is a validation or cast error. -/
def castCredential (id : ObjectId) (c : CredentialInput) : Option CredentialDoc :=
  match castObjectId c.userId with
  | none => none
  | some owner =>
    if trim c.website = [] ∨ trim c.username = [] ∨ c.passwordEncrypted = [] ∨ c.iv = [] then none
    else some
      { _id := id, userId := owner, website := trim c.website, username := trim c.username,
        passwordEncrypted := c.passwordEncrypted, iv := c.iv,
        tags := (c.tags.getD []).map trim }

/-- The unique index `{ userId, website, username }`: another document holds the same
triple. -/
def violatesUniqueIndex (db : Collection) (doc : CredentialDoc) : Bool :=
  db.any fun d =>
    d._id ≠ doc._id && d.userId = doc.userId && d.website = doc.website &&
      d.username = doc.username

/-- `newCredential.save()` for a new document with the identifier `id`: the document is
validated, then inserted unless its `_id` or its unique-index triple is already there. -/
def saveNew (db : Collection) (id : ObjectId) (c : CredentialInput) :
    Option (Collection × CredentialDoc) :=
  match castCredential id c with
  | none => none
  | some doc =>
    if db.any (fun d => d._id = id) || violatesUniqueIndex db doc then none
    else some (db ++ [doc], doc)

/-- `credential.save()` for a document that was loaded and modified: the document is
validated, then written in place of the stored one unless the unique index forbids it. -/
def saveExisting (db : Collection) (id : ObjectId) (c : CredentialInput) :
    Option (Collection × CredentialDoc) :=
  match castCredential id c with
  | none => none
  | some doc =>
    if violatesUniqueIndex db doc then none
    else some (db.map (fun d => if d._id = id then doc else d), doc)

/-- `Credential.findById(id)`: `none` when `id` cannot be cast (the call throws),
otherwise the document found, if any. -/
def findById (db : Collection) (id : JSString) : Option (Option CredentialDoc) :=
  match castObjectId id with
  | none => none
  | some oid => some (db.find? fun d => d._id = oid)

/-- The body of a credential request: a field that is absent is `none`. -/
structure CredentialBody where
  website : Option JSString
  username : Option JSString
  password : Option JSString
  tags : Option (List JSString)
  deriving DecidableEq, Repr

/-- What a handler of `routes/credentials.js` reads of a request once `authMiddleware`
has let it through: the token cookie, `req.user.id`, `req.params.id` and the body. -/
structure Request where
  cookieToken : JSString
  userId : JSString
  paramId : JSString
  body : CredentialBody
  deriving DecidableEq, Repr

/-- The responses of the credential routes. -/
inductive Response where
  | created (doc : CredentialDoc)
  | ok (doc : CredentialDoc)
  | badRequest (errors : List String)
  | notFound (message : String)
  | serverError (message : String)
  | noContent
  deriving DecidableEq, Repr

/-- `body(field).notEmpty()` of express-validator: the field is there and not empty. -/
def notEmpty (field : Option JSString) : Bool :=
  match field with
  | some s => s ≠ []
  | none => false

/-- The three validators of the POST and PUT routes: the messages of those that fail. -/
def validationErrors (body : CredentialBody) : List String :=
  (if notEmpty body.website then [] else ["Website is required"]) ++
  (if notEmpty body.username then [] else ["Username is required"]) ++
  (if notEmpty body.password then [] else ["Password is required"])

/-- What a handler takes from outside the request: the block cipher and the
libraries, `process.env.JWT_SECRET`, the time, the bytes `crypto.randomBytes(16)` will
return and the `_id` a new document will get. -/
structure Platform where
  cipher : BlockCipher
  lib : KeyLib
  secret : JSString
  now : Nat
  randomBytes : Buffer
  freshId : ObjectId

/-- `router.post('/')`: the new collection and the response. -/
def postCredential (P : Platform) (db : Collection) (req : Request) : Collection × Response :=
  if validationErrors req.body ≠ [] then (db, .badRequest (validationErrors req.body))
  else
    match deriveKey P.lib P.secret P.now req.cookieToken req.userId with
    | .error _ => (db, .serverError "Failed to store credential")
    | .ok key =>
      match encryptText P.cipher (req.body.password.getD []) key P.randomBytes with
      | .error _ => (db, .serverError "Failed to store credential")
      | .ok env =>
        let newCredential : CredentialInput :=
          { userId := req.userId, website := req.body.website.getD [],
            username := req.body.username.getD [], passwordEncrypted := env.encrypted,
            iv := env.iv, tags := req.body.tags }
        match saveNew db P.freshId newCredential with
        | none => (db, .serverError "Failed to store credential")
        | some (db2, saved) => (db2, .created saved)

/-- `router.put('/:id')`: the new collection and the response. -/
def putCredential (P : Platform) (db : Collection) (req : Request) : Collection × Response :=
  if validationErrors req.body ≠ [] then (db, .badRequest (validationErrors req.body))
  else
    match findById db req.paramId with
    | none => (db, .serverError "Failed to update credential")
    | some none => (db, .notFound "Credential not found")
    | some (some credential) =>
      if credential.userId ≠ req.userId then (db, .notFound "Credential not found")
      else
        match deriveKey P.lib P.secret P.now req.cookieToken req.userId with
        | .error _ => (db, .serverError "Failed to update credential")
        | .ok key =>
          match encryptText P.cipher (req.body.password.getD []) key P.randomBytes with
          | .error _ => (db, .serverError "Failed to update credential")
          | .ok env =>
            let modified : CredentialInput :=
              { userId := credential.userId, website := req.body.website.getD [],
                username := req.body.username.getD [], passwordEncrypted := env.encrypted,
                iv := env.iv, tags := req.body.tags }
            match saveExisting db credential._id modified with
            | none => (db, .serverError "Failed to update credential")
            | some (db2, saved) => (db2, .ok saved)

/-- `router.delete('/:id')`: the new collection and the response.
`Credential.findByIdAndDelete` removes the document with the identifier. -/
def deleteCredential (db : Collection) (req : Request) : Collection × Response :=
  match findById db req.paramId with
  | none => (db, .serverError "Failed to delete credential")
  | some none => (db, .notFound "Credential not found")
  | some (some credential) =>
    if credential.userId ≠ req.userId then (db, .notFound "Credential not found")
    else (db.eraseP (fun d => d._id = credential._id), .noContent)

/-- A record without its envelope: `passwordEncrypted` and `iv` blanked. -/
def eraseEnvelope (d : CredentialDoc) : CredentialDoc :=
  { d with passwordEncrypted := [], iv := [] }

/-- The request `req` with `pw` as the submitted password. -/
def withPassword (req : Request) (pw : JSString) : Request :=
  { req with body := { req.body with password := some pw } }

/-- The platform `P` with `rnd` as the bytes `crypto.randomBytes(16)` returns. -/
def withRandomBytes (P : Platform) (rnd : Buffer) : Platform :=
  { P with randomBytes := rnd }

/-! ## A sample platform

Small executable instances of the library parameters, on which the functions can be
evaluated. -/

/-- A JavaScript string literal. -/
def js (s : String) : JSString := utf16Encode (s.toList.map Char.toNat)

/-- A toy block cipher: every byte of the block is shifted by the first byte of the key. -/
def shiftCipher : BlockCipher where
  encryptBlock key block := block.map (fun b => b + key.headD 0)
  decryptBlock key block := block.map (fun b => b - key.headD 0)
  encryptBlock_length := by intro key block _ h; simpa using h
  decryptBlock_length := by intro key block _ h; simpa using h
  decrypt_encrypt := by intro key block _ _; simp [List.map_map, Function.comp_def]
  encrypt_decrypt := by intro key block _ _; simp [List.map_map, Function.comp_def]

/-- A toy token format: the secret, then one code unit of expiry time, then the user
id. `jwtVerify` accepts a token that starts with the secret and has not expired. -/
def sampleVerify (token secret : JSString) (now : Nat) : Option JwtPayload :=
  if secret.isPrefixOf token then
    match token.drop secret.length with
    | e :: userId => if now < e.val then some { userId := userId, iat := 0, exp := e.val } else none
    | [] => none
  else none

/-- A toy key-derivation function: byte `i` of the output is a checksum of the password,
the salt, the iteration count and `i`. -/
def samplePbkdf2 (password salt : Buffer) (iterations keylen : Nat) (_digest : Digest) : Buffer :=
  (List.range keylen).map fun i =>
    byte ((password.map Fin.val).sum + 3 * (salt.map Fin.val).sum + iterations + i)

/-- The sample `jsonwebtoken` and `pbkdf2Sync`. -/
def sampleKeyLib : KeyLib where
  jwtVerify := sampleVerify
  pbkdf2Sync := samplePbkdf2
  pbkdf2Sync_length := by intro _ _ _ _ _; simp [samplePbkdf2]

/-- A sample 32-byte key: the bytes 1, 2, ..., 32. -/
def sampleKey : Buffer := (List.range 32).map fun i => byte (i + 1)

/-- A sample draw of `crypto.randomBytes(16)`: the bytes 0xA0, ..., 0xAF. -/
def sampleIv : Buffer := (List.range 16).map fun i => byte (0xA0 + i)

/-- A sample server secret. -/
def sampleSecret : JSString := js "s3cret"

/-- A sample token for the user `"u1"` that expires at time 10. -/
def sampleToken : JSString := sampleSecret ++ [unit16 10] ++ js "u1"

/-- A second sample token for the user `"u1"`, that expires at time 20. -/
def sampleToken2 : JSString := sampleSecret ++ [unit16 20] ++ js "u1"

/-- A second sample key: 32 bytes 9. -/
def sampleKey2 : Buffer := List.replicate 32 (byte 9)

/-- The envelope `encryptText` returns for `"hunter2"` on the sample cipher, key and draw. -/
def sampleEnvelope : Envelope :=
  { encrypted := js "c9d5cdd8c2d895afa2a1a4a3a6a5a8a7",
    iv := js "a0a1a2a3a4a5a6a7a8a9aaabacadaeaf" }

/-- A sample user id. -/
def sampleUser : JSString := js "65f0c0ffee0123456789abcd"

/-- A sample platform: the sample cipher and libraries, the time 5, a fixed draw of
random bytes and a fixed new `_id`. -/
def samplePlatform : Platform :=
  { cipher := shiftCipher, lib := sampleKeyLib, secret := sampleSecret, now := 5,
    randomBytes := sampleIv, freshId := js "000000000000000000000001" }

/-- A sample request of the sample user, with a token that expires at time 10, for the
credential `000000000000000000000001`, submitting the password `pw`. -/
def sampleRequest (pw : JSString) : Request :=
  { cookieToken := sampleSecret ++ [unit16 10] ++ sampleUser, userId := sampleUser,
    paramId := js "000000000000000000000001",
    body := { website := some (js "example.com"), username := some (js " alice "),
              password := some pw, tags := some [js "work"] } }

/-- A stored credential of the sample user. -/
def sampleStored : CredentialDoc :=
  { _id := js "000000000000000000000001", userId := sampleUser, website := js "example.org",
    username := js "bob", passwordEncrypted := js "00", iv := js "00", tags := [] }

/-! ## `client/src/components/CredentialModal.js`: the tags of the form -/

/-- The state `formData` of the credential form. -/
structure FormData where
  website : JSString
  username : JSString
  password : JSString
  tags : List JSString
  deriving DecidableEq, Repr

/-- The two pieces of state of `CredentialModal`: `formData` and `tagInput`. -/
structure ModalState where
  formData : FormData
  tagInput : JSString
  deriving DecidableEq, Repr

/-- The comma, `','`. -/
def comma : CodeUnit := unit16 44

/-- `s.endsWith(c)` for a one-character `c`. -/
def endsWith (s : JSString) (c : CodeUnit) : Bool := s.getLast? = some c

/-- `s.split(sep)` for a one-character separator: the pieces between the separators,
one more than there are separators. -/
def split (sep : CodeUnit) : JSString → List JSString
  | [] => [[]]
  | c :: rest =>
    if c = sep then [] :: split sep rest
    else
      match split sep rest with
      | [] => [[c]]
      | piece :: pieces => (c :: piece) :: pieces

/-- `handleTagInputChange`, with `e.target.value` as `value`. -/
def handleTagInputChange (st : ModalState) (value : JSString) : ModalState :=
  if endsWith value comma then
    let tagToAdd := trim value.dropLast
    { formData :=
        if tagToAdd ≠ [] ∧ tagToAdd ∉ st.formData.tags then
          { st.formData with tags := st.formData.tags ++ [tagToAdd] }
        else st.formData,
      tagInput := [] }
  else if comma ∈ value then
    let parts := split comma value
    let tagsToAdd := (parts.dropLast.map trim).filter
      (fun tag => decide (tag.length > 0) && decide (tag ∉ st.formData.tags))
    let remainingInput := trim (parts.getLastD [])
    { formData :=
        if tagsToAdd.length > 0 then
          { st.formData with tags := st.formData.tags ++ tagsToAdd }
        else st.formData,
      tagInput := remainingInput }
  else { st with tagInput := value }

/-- `addTag`. -/
def addTag (st : ModalState) : ModalState :=
  let trimmedTag := trim st.tagInput
  { formData :=
      if trimmedTag ≠ [] ∧ trimmedTag ∉ st.formData.tags then
        { st.formData with tags := st.formData.tags ++ [trimmedTag] }
      else st.formData,
    tagInput := [] }

/-- `handleTagInputKeyDown`, with `e.key` as `key`. -/
def handleTagInputKeyDown (st : ModalState) (key : JSString) : ModalState :=
  if key = js "Enter" then addTag st
  else if key = js "," ∧ trim st.tagInput ≠ [] then addTag st
  else if key = js "Backspace" ∧ st.tagInput = [] ∧ st.formData.tags.length > 0 then
    { st with formData := { st.formData with tags := st.formData.tags.dropLast } }
  else st

/-- `removeTag`. -/
def removeTag (st : ModalState) (tagToRemove : JSString) : ModalState :=
  { st with formData :=
      { st.formData with tags := st.formData.tags.filter (fun tag => tag ≠ tagToRemove) } }

/-- `handleSubmit`: the form data handed to `onSave`. -/
def handleSubmit (st : ModalState) : FormData :=
  if trim st.tagInput ≠ [] then
    let finalTags := st.formData.tags
    let finalTags :=
      if trim st.tagInput ∉ finalTags then finalTags ++ [trim st.tagInput] else finalTags
    { st.formData with tags := finalTags }
  else st.formData

/-- No tag of the list is empty or made of white space only. -/
def NoBlankTags (tags : List JSString) : Prop := ∀ t ∈ tags, trim t ≠ []

instance (tags : List JSString) : Decidable (NoBlankTags tags) := by
  unfold NoBlankTags
  infer_instance

/-- Every tag of `new` that is not a tag of `old` is trimmed. -/
def AddedTrimmed (old new : List JSString) : Prop := ∀ t ∈ new, t ∈ old ∨ trim t = t

instance (old new : List JSString) : Decidable (AddedTrimmed old new) := by
  unfold AddedTrimmed
  infer_instance

/-- A form with the tags `tags` and the text `input` in the tag field. -/
def sampleForm (tags : List JSString) (input : JSString) : ModalState :=
  { formData := { website := js "example.com", username := js "alice", password := [],
                  tags := tags },
    tagInput := input }

/-! ## `client/src/pages/Dashboard.js`: the filter of the credential list -/

/-- `s.includes(sub)` for strings: `sub` occurs in `s` at some position. -/
def includes : JSString → JSString → Bool
  | [], sub => sub.isPrefixOf []
  | c :: rest, sub => sub.isPrefixOf (c :: rest) || includes rest sub

/-- `filterCredentials` of `pages/Dashboard.js`: the value it gives to
`setFilteredCredentials`, for the state `credentials`, `search` and `selectedTag`.
`String.prototype.toLowerCase` is a parameter. -/
def filterCredentials (toLowerCase : JSString → JSString) (credentials : List CredentialDoc)
    (search selectedTag : JSString) : List CredentialDoc :=
  let filtered := credentials
  let filtered :=
    if search ≠ [] then
      filtered.filter fun cred =>
        includes (toLowerCase cred.website) (toLowerCase search) ||
        includes (toLowerCase cred.username) (toLowerCase search) ||
        cred.tags.any (fun tag => includes (toLowerCase tag) (toLowerCase search))
    else filtered
  let filtered :=
    if selectedTag ≠ [] then filtered.filter fun cred => decide (selectedTag ∈ cred.tags)
    else filtered
  filtered

/-- The claim's condition on a credential: when `search` is not empty, the lowercased
search is a substring of the lowercased website, of the lowercased username or of some
lowercased tag; and when `selectedTag` is not empty, it is one of the tags. -/
def MatchesFilter (toLowerCase : JSString → JSString) (search selectedTag : JSString)
    (cred : CredentialDoc) : Prop :=
  (search ≠ [] →
    toLowerCase search <:+: toLowerCase cred.website ∨
    toLowerCase search <:+: toLowerCase cred.username ∨
    ∃ tag ∈ cred.tags, toLowerCase search <:+: toLowerCase tag) ∧
  (selectedTag ≠ [] → selectedTag ∈ cred.tags)

instance (toLowerCase : JSString → JSString) (search selectedTag : JSString)
    (cred : CredentialDoc) : Decidable (MatchesFilter toLowerCase search selectedTag cred) := by
  unfold MatchesFilter
  infer_instance

/-- A sample `toLowerCase`, right on ASCII strings: `A`..`Z` become `a`..`z`. -/
def asciiLower (s : JSString) : JSString :=
  s.map fun c => if 65 ≤ c.val ∧ c.val ≤ 90 then unit16 (c.val + 32) else c

/-- A second stored credential, of a bank, with the tag `"Money"`. -/
def sampleBank : CredentialDoc :=
  { sampleStored with _id := js "000000000000000000000002", website := js "Bank.example",
                      tags := [js "Money"] }

/-! # Theorems -/

/-! ## Exclusive or and hexadecimal encoding -/

theorem byte_val (n : Nat) : (byte n).val = n % 256 := rfl

theorem xorBytes_length (a b : Buffer) : (xorBytes a b).length = min a.length b.length := by
  simp [xorBytes]

theorem byte_xor_xor (x y : Byte) : byte ((byte (x.val ^^^ y.val)).val ^^^ y.val) = x := by
  apply Fin.ext
  have h : x.val ^^^ y.val < 2 ^ 8 := Nat.xor_lt_two_pow (by simp) (by simp)
  have h2 : x.val ^^^ y.val < 256 := h
  have hx : x.val < 256 := x.isLt
  simp only [byte_val]
  rw [Nat.mod_eq_of_lt h2, Nat.xor_cancel_right, Nat.mod_eq_of_lt hx]

theorem xorBytes_cancel : ∀ (a b : Buffer), a.length ≤ b.length → xorBytes (xorBytes a b) b = a
  | [], _, _ => by simp [xorBytes]
  | x :: a, [], h => by simp at h
  | x :: a, y :: b, h => by
    have ih := xorBytes_cancel a b (by simpa using h)
    simp only [xorBytes, List.zipWith_cons_cons] at ih ⊢
    rw [ih, byte_xor_xor]

theorem byte_xor_inj (x y z : Byte) (h : byte (x.val ^^^ z.val) = byte (y.val ^^^ z.val)) : x = y := by
  have := byte_xor_xor x z
  rw [h, byte_xor_xor] at this
  exact this.symm

theorem xorBytes_left_inj : ∀ (a b c : Buffer), a.length = b.length → a.length ≤ c.length →
    xorBytes a c = xorBytes b c → a = b := by
  intro a b c hab hac h
  have h1 := xorBytes_cancel a c hac
  have h2 := xorBytes_cancel b c (hab ▸ hac)
  rw [h] at h1
  exact h1.symm.trans h2

theorem unit16_low (c : CodeUnit) (h : c.val < 256) : unit16 (c.val % 256) = c := by
  apply Fin.ext
  simp only [unit16]
  omega

theorem hexDigit_lt (n : Nat) (h : n < 16) : (hexDigit n).val < 256 := by
  unfold hexDigit
  split <;> simp only [unit16] <;> omega

theorem hexValue_hexDigit (n : Nat) (h : n < 16) : hexValue (hexDigit n) = some n := by
  unfold hexDigit
  split
  · simp only [hexValue, unit16]
    rw [if_pos (by constructor <;> omega)]
    congr 1; omega
  · simp only [hexValue, unit16]
    rw [if_neg (by omega), if_pos (by constructor <;> omega)]
    congr 1; omega

theorem unhex_of_lt (c : CodeUnit) (h : c.val < 256) : unhex c = hexValue c := by
  unfold unhex
  rw [unit16_low c h]

theorem unhex_hexDigit (n : Nat) (h : n < 16) : unhex (hexDigit n) = some n := by
  rw [unhex_of_lt _ (hexDigit_lt n h), hexValue_hexDigit n h]

theorem isLowerHex_hexDigit (n : Nat) (h : n < 16) : isLowerHex (hexDigit n) = true := by
  unfold hexDigit
  split
  · simp only [isLowerHex, unit16, Bool.or_eq_true, Bool.and_eq_true, decide_eq_true_eq]
    left; omega
  · simp only [isLowerHex, unit16, Bool.or_eq_true, Bool.and_eq_true, decide_eq_true_eq]
    right; omega

theorem hexDecode_hexEncode : ∀ bs : Buffer, hexDecode (hexEncode bs) = bs
  | [] => rfl
  | b :: bs => by
    have hb : b.val < 256 := b.isLt
    simp only [hexEncode, hexDecode]
    rw [unhex_hexDigit _ (by omega), unhex_hexDigit _ (by omega)]
    simp only
    rw [hexDecode_hexEncode bs]
    congr 1
    apply Fin.ext
    simp only [byte]
    omega

theorem hexEncode_length : ∀ bs : Buffer, (hexEncode bs).length = 2 * bs.length
  | [] => rfl
  | b :: bs => by simp only [hexEncode, List.length_cons, hexEncode_length bs]; omega

theorem hexEncode_append : ∀ a b : Buffer, hexEncode (a ++ b) = hexEncode a ++ hexEncode b
  | [], _ => rfl
  | x :: a, b => by
    show hexEncode (x :: (a ++ b)) = _
    simp only [hexEncode, hexEncode_append a b, List.cons_append]

theorem hexEncode_lowerHex : ∀ (bs : Buffer) (c : CodeUnit), c ∈ hexEncode bs → isLowerHex c = true
  | [], c, h => by simp [hexEncode] at h
  | b :: bs, c, h => by
    have hb : b.val < 256 := b.isLt
    simp only [hexEncode, List.mem_cons] at h
    rcases h with h | h | h
    · rw [h]; exact isLowerHex_hexDigit _ (by omega)
    · rw [h]; exact isLowerHex_hexDigit _ (by omega)
    · exact hexEncode_lowerHex bs c h

theorem hexEncode_injective (a b : Buffer) (h : hexEncode a = hexEncode b) : a = b := by
  have := congrArg hexDecode h
  rwa [hexDecode_hexEncode, hexDecode_hexEncode] at this

/-! ## UTF-16 and UTF-8: encoding then decoding -/

theorem unit16_eq (n : Nat) (u : CodeUnit) (h : n = u.val) : unit16 n = u := by
  apply Fin.ext
  have hu : u.val < 65536 := u.isLt
  simp only [unit16]
  omega

theorem byte_eq (n : Nat) (b : Byte) (h : n = b.val) : byte n = b := by
  apply Fin.ext
  have hb : b.val < 256 := b.isLt
  simp only [byte]
  omega

theorem utf16_roundtrip_aux : ∀ (n : Nat) (s : JSString), s.length ≤ n → isWellFormed s = true →
    utf16Encode (utf16Decode s) = s ∧ ∀ cp ∈ utf16Decode s, IsScalar cp := by
  intro n
  induction n with
  | zero =>
    intro s hs _
    have : s = [] := List.length_eq_zero.mp (by omega)
    subst this
    simp [utf16Decode, utf16Encode]
  | succ n ih =>
    intro s hs hw
    match s, hs, hw with
    | [], _, _ => simp [utf16Decode, utf16Encode]
    | [u], _, hw =>
      have hu : u.val < 65536 := u.isLt
      simp only [isWellFormed, isHighSurrogate, isLowSurrogate, Bool.not_eq_true', Bool.or_eq_false_iff,
        Bool.and_eq_false_iff, decide_eq_false_iff_not] at hw
      have hns : ¬ (0xD800 ≤ u.val ∧ u.val ≤ 0xDFFF) := by omega
      have : (isHighSurrogate u || isLowSurrogate u) = false := by
        simp only [isHighSurrogate, isLowSurrogate, Bool.or_eq_false_iff, Bool.and_eq_false_iff,
          decide_eq_false_iff_not]
        omega
      simp only [utf16Decode, this, utf16Encode, List.flatMap_cons, List.flatMap_nil, List.append_nil,
        utf16EncodeCodePoint, hu, if_true, List.mem_singleton, forall_eq, IsScalar, Bool.false_eq_true, if_false]
      exact ⟨by rw [unit16_eq _ u rfl], by omega, hns⟩
    | u :: v :: rest, hs, hw =>
      have hu : u.val < 65536 := u.isLt
      have hv : v.val < 65536 := v.isLt
      simp only [isWellFormed] at hw
      simp only [utf16Decode]
      by_cases h1 : isHighSurrogate u = true
      · simp only [h1, if_true, Bool.and_eq_true] at hw ⊢
        obtain ⟨h2, h3⟩ := hw
        simp only [h2, if_true]
        have ih' := ih rest (by simp at hs; omega) h3
        simp only [isHighSurrogate, isLowSurrogate, Bool.and_eq_true, decide_eq_true_eq] at h1 h2
        constructor
        · simp only [utf16Encode, List.flatMap_cons] at ih' ⊢
          rw [ih'.1]
          simp only [utf16EncodeCodePoint]
          rw [if_neg (by omega)]
          rw [unit16_eq _ u (by omega), unit16_eq _ v (by omega)]
          rfl
        · intro cp hcp
          simp only [List.mem_cons] at hcp
          rcases hcp with h | h
          · rw [h]; exact ⟨by omega, by omega⟩
          · exact ih'.2 cp h
      · simp only [h1, Bool.false_eq_true, if_false] at hw ⊢
        by_cases h2 : isLowSurrogate u = true
        · simp [h2] at hw
        · simp only [h2, Bool.false_eq_true, if_false] at hw ⊢
          have ih' := ih (v :: rest) (by simp at hs ⊢; omega) hw
          simp only [isHighSurrogate, isLowSurrogate, Bool.and_eq_true, decide_eq_true_eq] at h1 h2
          constructor
          · simp only [utf16Encode, List.flatMap_cons] at ih' ⊢
            rw [ih'.1]
            simp only [utf16EncodeCodePoint, hu, if_true, List.cons_append, List.nil_append]
            rw [unit16_eq _ u rfl]
          · intro cp hcp
            simp only [List.mem_cons] at hcp
            rcases hcp with h | h
            · rw [h]; exact ⟨by omega, by omega⟩
            · exact ih'.2 cp h

theorem utf8Run_cons (st : Utf8State) (b : Byte) (bs : Buffer) :
    utf8Run st (b :: bs) =
      ((utf8Run (utf8Step st b).1 bs).1, (utf8Step st b).2 ++ (utf8Run (utf8Step st b).1 bs).2) := rfl

theorem utf8Start_ascii (b : Byte) (h : b.val ≤ 0x7F) : utf8Start b = (Utf8State.init, [b.val]) := by
  simp only [utf8Start, h, if_true]

theorem utf8Start_lead2 (b : Byte) (h : 0xC2 ≤ b.val ∧ b.val ≤ 0xDF) :
    utf8Start b = ({ needed := 1, codePoint := b.val - 0xC0, lower := 0x80, upper := 0xBF }, []) := by
  unfold utf8Start
  rw [if_neg (by omega), if_pos h]

theorem utf8Start_lead3 (b : Byte) (h : 0xE0 ≤ b.val ∧ b.val ≤ 0xEF) :
    utf8Start b =
      ({ needed := 2, codePoint := b.val - 0xE0,
         lower := if b.val = 0xE0 then 0xA0 else 0x80,
         upper := if b.val = 0xED then 0x9F else 0xBF }, []) := by
  unfold utf8Start
  rw [if_neg (by omega), if_neg (by omega), if_pos h]

theorem utf8Start_lead4 (b : Byte) (h : 0xF0 ≤ b.val ∧ b.val ≤ 0xF4) :
    utf8Start b =
      ({ needed := 3, codePoint := b.val - 0xF0,
         lower := if b.val = 0xF0 then 0x90 else 0x80,
         upper := if b.val = 0xF4 then 0x8F else 0xBF }, []) := by
  unfold utf8Start
  rw [if_neg (by omega), if_neg (by omega), if_neg (by omega), if_pos h]

theorem utf8Start_invalid (b : Byte)
    (h : (0x80 ≤ b.val ∧ b.val ≤ 0xC1) ∨ 0xF5 ≤ b.val) :
    utf8Start b = (Utf8State.init, [0xFFFD]) := by
  unfold utf8Start
  rw [if_neg (by omega), if_neg (by omega), if_neg (by omega), if_neg (by omega)]

theorem utf8Step_init (b : Byte) : utf8Step Utf8State.init b = utf8Start b := by
  simp [utf8Step, Utf8State.init]

theorem utf8Step_reject (st : Utf8State) (b : Byte) (h0 : st.needed ≠ 0)
    (h : b.val < st.lower ∨ st.upper < b.val) :
    utf8Step st b = ((utf8Start b).1, 0xFFFD :: (utf8Start b).2) := by
  unfold utf8Step
  rw [if_neg h0, if_pos h]

theorem utf8Step_last (st : Utf8State) (b : Byte) (h0 : st.needed = 1)
    (h : st.lower ≤ b.val ∧ b.val ≤ st.upper) :
    utf8Step st b = (Utf8State.init, [st.codePoint * 0x40 + (b.val - 0x80)]) := by
  unfold utf8Step
  rw [if_neg (by omega), if_neg (by omega), if_pos h0]

theorem utf8Step_more (st : Utf8State) (b : Byte) (h0 : 2 ≤ st.needed)
    (h : st.lower ≤ b.val ∧ b.val ≤ st.upper) :
    utf8Step st b =
      ({ needed := st.needed - 1, codePoint := st.codePoint * 0x40 + (b.val - 0x80),
         lower := 0x80, upper := 0xBF }, []) := by
  unfold utf8Step
  rw [if_neg (by omega), if_neg (by omega), if_neg (by omega)]

theorem utf8Run_ascii (b : Byte) (rest : Buffer) (h : b.val ≤ 0x7F) :
    utf8Run Utf8State.init (b :: rest) =
      ((utf8Run Utf8State.init rest).1, b.val :: (utf8Run Utf8State.init rest).2) := by
  rw [utf8Run_cons, utf8Step_init, utf8Start_ascii b h]
  rfl

theorem utf8Run_two (b0 b1 : Byte) (rest : Buffer) (h0 : 0xC2 ≤ b0.val ∧ b0.val ≤ 0xDF)
    (h1 : 0x80 ≤ b1.val ∧ b1.val ≤ 0xBF) :
    utf8Run Utf8State.init (b0 :: b1 :: rest) =
      ((utf8Run Utf8State.init rest).1,
       ((b0.val - 0xC0) * 0x40 + (b1.val - 0x80)) :: (utf8Run Utf8State.init rest).2) := by
  rw [utf8Run_cons, utf8Step_init, utf8Start_lead2 b0 h0, utf8Run_cons,
    utf8Step_last _ b1 rfl h1]
  rfl

theorem utf8Run_three (b0 b1 b2 : Byte) (rest : Buffer) (h0 : 0xE0 ≤ b0.val ∧ b0.val ≤ 0xEF)
    (h1 : secondLower b0 ≤ b1.val ∧ b1.val ≤ secondUpper b0)
    (h2 : 0x80 ≤ b2.val ∧ b2.val ≤ 0xBF) :
    utf8Run Utf8State.init (b0 :: b1 :: b2 :: rest) =
      ((utf8Run Utf8State.init rest).1,
       (((b0.val - 0xE0) * 0x40 + (b1.val - 0x80)) * 0x40 + (b2.val - 0x80)) ::
         (utf8Run Utf8State.init rest).2) := by
  have h1' : (if b0.val = 0xE0 then 0xA0 else 0x80) ≤ b1.val ∧
      b1.val ≤ (if b0.val = 0xED then 0x9F else 0xBF) := by
    unfold secondLower secondUpper at h1
    split <;> split <;> split_ifs at h1 <;> omega
  rw [utf8Run_cons, utf8Step_init, utf8Start_lead3 b0 h0, utf8Run_cons,
    utf8Step_more _ b1 (Nat.le_refl 2) h1', utf8Run_cons, utf8Step_last _ b2 rfl h2]
  rfl

theorem utf8Run_four (b0 b1 b2 b3 : Byte) (rest : Buffer) (h0 : 0xF0 ≤ b0.val ∧ b0.val ≤ 0xF4)
    (h1 : secondLower b0 ≤ b1.val ∧ b1.val ≤ secondUpper b0)
    (h2 : 0x80 ≤ b2.val ∧ b2.val ≤ 0xBF) (h3 : 0x80 ≤ b3.val ∧ b3.val ≤ 0xBF) :
    utf8Run Utf8State.init (b0 :: b1 :: b2 :: b3 :: rest) =
      ((utf8Run Utf8State.init rest).1,
       ((((b0.val - 0xF0) * 0x40 + (b1.val - 0x80)) * 0x40 + (b2.val - 0x80)) * 0x40 +
          (b3.val - 0x80)) :: (utf8Run Utf8State.init rest).2) := by
  have h1' : (if b0.val = 0xF0 then 0x90 else 0x80) ≤ b1.val ∧
      b1.val ≤ (if b0.val = 0xF4 then 0x8F else 0xBF) := by
    unfold secondLower secondUpper at h1
    split <;> split <;> split_ifs at h1 <;> omega
  rw [utf8Run_cons, utf8Step_init, utf8Start_lead4 b0 h0, utf8Run_cons,
    utf8Step_more _ b1 (by show 2 ≤ 3; omega) h1', utf8Run_cons, utf8Step_more _ b2 (Nat.le_refl 2) h2,
    utf8Run_cons, utf8Step_last _ b3 rfl h3]
  rfl

theorem utf8Run_encodeCodePoint (cp : Nat) (h : IsScalar cp) (rest : Buffer) :
    utf8Run Utf8State.init (utf8EncodeCodePoint cp ++ rest) =
      ((utf8Run Utf8State.init rest).1, cp :: (utf8Run Utf8State.init rest).2) := by
  obtain ⟨hmax, hsur⟩ := h
  unfold utf8EncodeCodePoint
  by_cases c1 : cp < 0x80
  · rw [if_pos c1]
    show utf8Run Utf8State.init (byte cp :: rest) = _
    rw [utf8Run_ascii _ _ (by simp only [byte]; omega)]
    have : (byte cp).val = cp := by simp only [byte]; omega
    rw [this]
  · rw [if_neg c1]
    by_cases c2 : cp < 0x800
    · rw [if_pos c2]
      show utf8Run Utf8State.init (byte (0xC0 + cp / 0x40) :: byte (0x80 + cp % 0x40) :: rest) = _
      rw [utf8Run_two _ _ _ (by simp only [byte]; omega) (by simp only [byte]; omega)]
      have : ((byte (0xC0 + cp / 0x40)).val - 0xC0) * 0x40 + ((byte (0x80 + cp % 0x40)).val - 0x80)
          = cp := by simp only [byte]; omega
      rw [this]
    · rw [if_neg c2]
      by_cases c3 : cp < 0x10000
      · rw [if_pos c3]
        show utf8Run Utf8State.init (byte (0xE0 + cp / 0x1000) :: byte (0x80 + cp / 0x40 % 0x40) ::
          byte (0x80 + cp % 0x40) :: rest) = _
        rw [utf8Run_three _ _ _ _ (by simp only [byte]; omega)
          (by simp only [byte, secondLower, secondUpper]; split_ifs <;> omega)
          (by simp only [byte]; omega)]
        have : (((byte (0xE0 + cp / 0x1000)).val - 0xE0) * 0x40 +
            ((byte (0x80 + cp / 0x40 % 0x40)).val - 0x80)) * 0x40 +
            ((byte (0x80 + cp % 0x40)).val - 0x80) = cp := by simp only [byte]; omega
        rw [this]
      · rw [if_neg c3]
        show utf8Run Utf8State.init (byte (0xF0 + cp / 0x40000) :: byte (0x80 + cp / 0x1000 % 0x40) ::
          byte (0x80 + cp / 0x40 % 0x40) :: byte (0x80 + cp % 0x40) :: rest) = _
        rw [utf8Run_four _ _ _ _ _ (by simp only [byte]; omega)
          (by simp only [byte, secondLower, secondUpper]; split_ifs <;> omega)
          (by simp only [byte]; omega) (by simp only [byte]; omega)]
        have : ((((byte (0xF0 + cp / 0x40000)).val - 0xF0) * 0x40 +
            ((byte (0x80 + cp / 0x1000 % 0x40)).val - 0x80)) * 0x40 +
            ((byte (0x80 + cp / 0x40 % 0x40)).val - 0x80)) * 0x40 +
            ((byte (0x80 + cp % 0x40)).val - 0x80) = cp := by simp only [byte]; omega
        rw [this]

theorem utf8Run_append (st : Utf8State) : ∀ (a b : Buffer),
    utf8Run st (a ++ b) =
      ((utf8Run (utf8Run st a).1 b).1, (utf8Run st a).2 ++ (utf8Run (utf8Run st a).1 b).2) := by
  intro a
  induction a generalizing st with
  | nil => intro b; simp [utf8Run]
  | cons x a ih =>
    intro b
    show utf8Run st (x :: (a ++ b)) = _
    rw [utf8Run_cons, utf8Run_cons, ih]
    simp only [List.append_assoc]

theorem utf8Run_encode : ∀ cps : List Nat, (∀ cp ∈ cps, IsScalar cp) →
    utf8Run Utf8State.init (cps.flatMap utf8EncodeCodePoint) = (Utf8State.init, cps)
  | [], _ => rfl
  | cp :: cps, h => by
    rw [List.flatMap_cons, utf8Run_encodeCodePoint cp (h cp (List.mem_cons_self _ _)),
      utf8Run_encode cps (fun c hc => h c (List.mem_cons_of_mem _ hc))]

/-- A string split between `write` and `end` is decoded as the whole buffer is. -/
theorem stringDecoder_write_end (a b : Buffer) :
    (StringDecoder.write Utf8State.init a).2 ++
      StringDecoder.end (StringDecoder.write Utf8State.init a).1 b = utf8Decode (a ++ b) := by
  simp only [utf8Decode, StringDecoder.end, StringDecoder.write, utf8Run_append, utf16Encode,
    List.flatMap_append, List.append_assoc]

/-- Decoding the UTF-8 bytes of a well-formed string gives the string back. -/
theorem utf8Decode_utf8Encode (s : JSString) (h : isWellFormed s = true) :
    utf8Decode (utf8Encode s) = s := by
  obtain ⟨h1, h2⟩ := utf16_roundtrip_aux s.length s (Nat.le_refl _) h
  simp only [utf8Decode, StringDecoder.end, StringDecoder.write, utf8Encode, utf8Run_encode _ h2, h1]
  simp [Utf8State.init]

/-! ## CBC with PKCS#7 padding: encryption then decryption -/

theorem cbc_blocks_roundtrip (E : BlockCipher) (key : Buffer) (hk : key.length = 32) :
    ∀ (n : Nat) (chain data rest : Buffer), chain.length = 16 → 16 * n ≤ data.length →
      (cbcEncryptBlocks E key n chain data).1.length = 16 * n ∧
      (cbcEncryptBlocks E key n chain data).2.length = 16 ∧
      cbcDecryptBlocks E key n chain ((cbcEncryptBlocks E key n chain data).1 ++ rest) =
        (data.take (16 * n), (cbcEncryptBlocks E key n chain data).2) := by
  intro n
  induction n with
  | zero => intro chain data rest hc _; simp [cbcEncryptBlocks, cbcDecryptBlocks, hc]
  | succ n ih =>
    intro chain data rest hc hd
    have ht : (data.take 16).length = 16 := by rw [List.length_take]; omega
    have hx : (xorBytes (data.take 16) chain).length = 16 := by rw [xorBytes_length, ht, hc]; rfl
    have hcl := E.encryptBlock_length key _ hk hx
    obtain ⟨i1, i2, i3⟩ := ih (E.encryptBlock key (xorBytes (data.take 16) chain)) (data.drop 16) rest hcl
      (by rw [List.length_drop]; omega)
    simp only [cbcEncryptBlocks, cbcDecryptBlocks]
    refine ⟨by rw [List.length_append, hcl, i1]; omega, i2, ?_⟩
    have e1 : (E.encryptBlock key (xorBytes (data.take 16) chain) ++
          (cbcEncryptBlocks E key n (E.encryptBlock key (xorBytes (data.take 16) chain))
            (data.drop 16)).1 ++ rest).take 16 =
        E.encryptBlock key (xorBytes (data.take 16) chain) := by
      rw [List.append_assoc, List.take_left' hcl]
    have e2 : (E.encryptBlock key (xorBytes (data.take 16) chain) ++
          (cbcEncryptBlocks E key n (E.encryptBlock key (xorBytes (data.take 16) chain))
            (data.drop 16)).1 ++ rest).drop 16 =
        (cbcEncryptBlocks E key n (E.encryptBlock key (xorBytes (data.take 16) chain))
            (data.drop 16)).1 ++ rest := by
      rw [List.append_assoc, List.drop_left' hcl]
    rw [e1, e2, i3, E.decrypt_encrypt key _ hk hx, xorBytes_cancel _ _ (by omega)]
    have : 16 * (n + 1) = 16 + 16 * n := by omega
    rw [this, List.take_add]

theorem pkcs7Pad_length (p : Buffer) (h : p.length < 16) : (pkcs7Pad p).length = 16 := by
  simp only [pkcs7Pad, List.length_append, List.length_replicate]; omega

theorem pkcs7Unpad_pkcs7Pad (p : Buffer) (h : p.length < 16) : pkcs7Unpad (pkcs7Pad p) = .ok p := by
  have hv : (byte (16 - p.length)).val = 16 - p.length := by simp only [byte]; omega
  have hlast : (pkcs7Pad p).getLast? = some (byte (16 - p.length)) := by
    have : 16 - p.length = (16 - p.length - 1) + 1 := by omega
    unfold pkcs7Pad
    rw [this, List.replicate_succ', ← List.append_assoc, List.getLast?_append]
    simp
  unfold pkcs7Unpad
  rw [hlast]
  simp only [hv, pkcs7Pad_length p h]
  rw [if_neg (by omega)]
  have hsub : 16 - (16 - p.length) = p.length := by omega
  rw [hsub]
  have hd : (pkcs7Pad p).drop p.length = List.replicate (16 - p.length) (byte (16 - p.length)) := by
    unfold pkcs7Pad; rw [List.drop_left]
  have ht : (pkcs7Pad p).take p.length = p := by
    unfold pkcs7Pad; rw [List.take_left]
  rw [hd, ht, if_pos]
  simp [List.all_eq_true]

theorem cipher_roundtrip (E : BlockCipher) (key iv m : Buffer) (hk : key.length = 32)
    (hiv : iv.length = 16) :
    ((CipherState.mk key iv []).update E m).2.length = 16 * (m.length / 16) ∧
    (((CipherState.mk key iv []).update E m).1.final E).length = 16 ∧
    ((CipherState.mk key iv []).decipherUpdate E
        (((CipherState.mk key iv []).update E m).2 ++
          ((CipherState.mk key iv []).update E m).1.final E)).2 = m.take (16 * (m.length / 16)) ∧
    ((CipherState.mk key iv []).decipherUpdate E
        (((CipherState.mk key iv []).update E m).2 ++
          ((CipherState.mk key iv []).update E m).1.final E)).1.decipherFinal E =
      .ok (m.drop (16 * (m.length / 16))) := by
  obtain ⟨r1, r2, _⟩ := cbc_blocks_roundtrip E key hk (m.length / 16) iv m [] hiv
    (Nat.mul_div_le m.length 16)
  have hp : (m.drop (16 * (m.length / 16))).length < 16 := by
    rw [List.length_drop]; omega
  have hx : (xorBytes (pkcs7Pad (m.drop (16 * (m.length / 16))))
      (cbcEncryptBlocks E key (m.length / 16) iv m).2).length = 16 := by
    rw [xorBytes_length, pkcs7Pad_length _ hp, r2]; rfl
  have hf : (E.encryptBlock key (xorBytes (pkcs7Pad (m.drop (16 * (m.length / 16))))
      (cbcEncryptBlocks E key (m.length / 16) iv m).2)).length = 16 :=
    E.encryptBlock_length key _ hk hx
  obtain ⟨_, _, r3⟩ := cbc_blocks_roundtrip E key hk (m.length / 16) iv m
    (E.encryptBlock key (xorBytes (pkcs7Pad (m.drop (16 * (m.length / 16))))
      (cbcEncryptBlocks E key (m.length / 16) iv m).2)) hiv (Nat.mul_div_le m.length 16)
  have hn : (((cbcEncryptBlocks E key (m.length / 16) iv m).1 ++
      E.encryptBlock key (xorBytes (pkcs7Pad (m.drop (16 * (m.length / 16))))
        (cbcEncryptBlocks E key (m.length / 16) iv m).2)).length - 1) / 16 = m.length / 16 := by
    rw [List.length_append, r1, hf]; omega
  simp only [CipherState.update, CipherState.final, CipherState.decipherUpdate,
    CipherState.decipherFinal, List.nil_append, hn, r3]
  refine ⟨r1, hf, trivial, ?_⟩
  rw [List.drop_left' r1, if_neg (by rw [hf]; simp), E.decrypt_encrypt key _ hk hx,
    xorBytes_cancel _ _ (by rw [pkcs7Pad_length _ hp, r2]), pkcs7Unpad_pkcs7Pad _ hp]

theorem createCipheriv_ok (key iv : Buffer) (hk : key.length = 32) (hiv : iv.length = 16) :
    createCipheriv key iv = .ok { key := key, chain := iv, pending := [] } := by
  simp [createCipheriv, hk, hiv]

/-- The bytes `encryptText` produces before hexadecimal encoding. -/
theorem encryptText_eq (E : BlockCipher) (p : JSString) (key rnd : Buffer)
    (hk : key.length = 32) (hr : rnd.length = 16) :
    encryptText E p key rnd = .ok
      { encrypted := hexEncode (((CipherState.mk key rnd []).update E (utf8Encode p)).2 ++
          ((CipherState.mk key rnd []).update E (utf8Encode p)).1.final E),
        iv := hexEncode rnd } := by
  simp only [encryptText, createCipheriv_ok key rnd hk hr, hexEncode_append]

/-- Decrypting what `encryptText` returned, under the same key, gives the text that
the UTF-8 bytes of the plaintext decode to. -/
theorem decryptText_encryptText (E : BlockCipher) (p : JSString) (key rnd : Buffer)
    (hk : key.length = 32) (hr : rnd.length = 16) :
    ∃ env, encryptText E p key rnd = .ok env ∧
      decryptText E env.encrypted env.iv key = .ok (utf8Decode (utf8Encode p)) := by
  refine ⟨_, encryptText_eq E p key rnd hk hr, ?_⟩
  obtain ⟨_, _, r3, r4⟩ := cipher_roundtrip E key rnd (utf8Encode p) hk hr
  simp only [decryptText, hexDecode_hexEncode, createCipheriv_ok key rnd hk hr, hexEncode_length]
  rw [if_neg (by omega)]
  simp only [r3, r4, stringDecoder_write_end, List.take_append_drop]

/-! ## Claims about `encryptText`, `decryptText` and `deriveKey` -/

/-- C1 (as amended). Round trip: for every 32-byte key, every draw of 16 random bytes
and every plaintext string without an unpaired surrogate (the empty string included),
`encryptText` succeeds and `decryptText` on its two outputs, under the same key,
succeeds and returns exactly the plaintext. -/
theorem C1_round_trip (E : BlockCipher) (p : JSString) (key rnd : Buffer)
    (hk : key.length = 32) (hr : rnd.length = 16) (hp : isWellFormed p = true) :
    ∃ env, encryptText E p key rnd = .ok env ∧
      decryptText E env.encrypted env.iv key = .ok p := by
  obtain ⟨env, h1, h2⟩ := decryptText_encryptText E p key rnd hk hr
  exact ⟨env, h1, by rw [h2, utf8Decode_utf8Encode p hp]⟩

/-- C1, witness: the round trip of `"hunter2"` and of the empty string on the sample
cipher. -/
theorem C1_round_trip_witness :
    (∃ env, encryptText shiftCipher (js "hunter2") sampleKey sampleIv = .ok env ∧
      decryptText shiftCipher env.encrypted env.iv sampleKey = .ok (js "hunter2")) ∧
    (∃ env, encryptText shiftCipher [] sampleKey sampleIv = .ok env ∧
      decryptText shiftCipher env.encrypted env.iv sampleKey = .ok []) :=
  ⟨C1_round_trip shiftCipher (js "hunter2") sampleKey sampleIv (by decide) (by decide) (by decide),
   C1_round_trip shiftCipher [] sampleKey sampleIv (by decide) (by decide) (by decide)⟩

/-- C1, counterexample: the plaintext `"\uD800"` (one unpaired surrogate) does not
survive the round trip, whatever the block cipher is: its UTF-8 bytes are those of
U+FFFD, so `decryptText` returns `"\uFFFD"`. -/
theorem C1_unpaired_surrogate_lost :
    ¬ ∃ E : BlockCipher, ∃ env, encryptText E [unit16 0xD800] sampleKey sampleIv = .ok env ∧
      decryptText E env.encrypted env.iv sampleKey = .ok [unit16 0xD800] := by
  rintro ⟨E, env, h1, h2⟩
  obtain ⟨env2, h3, h4⟩ := decryptText_encryptText E [unit16 0xD800] sampleKey sampleIv
    (by decide) (by decide)
  rw [h1] at h3
  cases h3
  rw [h2] at h4
  have hd : utf8Decode (utf8Encode [unit16 0xD800]) = [unit16 0xFFFD] := by decide
  rw [hd] at h4
  exact absurd (Except.ok.inj h4) (by decide)

/-- What `deriveKey` computes: an error when the token does not verify, and otherwise
the PBKDF2 output for the secret followed by the user id, salted with the padded user
id. -/
theorem deriveKey_eq (lib : KeyLib) (secret : JSString) (now : Nat) (token userId : JSString) :
    deriveKey lib secret now token userId =
      if (lib.jwtVerify token secret now).isSome then
        .ok (lib.pbkdf2Sync (utf8Encode (secret ++ userId)) (deriveSalt userId) 100000 32 .sha256)
      else .error .keyDerivationFailed := by
  unfold deriveKey
  cases lib.jwtVerify token secret now <;> rfl

/-- C2. Key determinism: with a fixed server secret and a fixed `userId`, two calls of
`deriveKey` with two tokens that both verify (at the times of the two calls) return the
identical key, and that key is a function of the server secret and the user id alone:
PBKDF2 of the secret followed by the user id, salted with the padded user id. No
master password enters the computation. -/
theorem C2_key_determinism (lib : KeyLib) (secret userId t1 t2 : JSString) (now1 now2 : Nat)
    (h1 : (lib.jwtVerify t1 secret now1).isSome) (h2 : (lib.jwtVerify t2 secret now2).isSome) :
    deriveKey lib secret now1 t1 userId = deriveKey lib secret now2 t2 userId ∧
    deriveKey lib secret now1 t1 userId =
      .ok (lib.pbkdf2Sync (utf8Encode (secret ++ userId)) (deriveSalt userId) 100000 32 .sha256) := by
  rw [deriveKey_eq, deriveKey_eq, if_pos h1, if_pos h2]
  exact ⟨rfl, rfl⟩

/-- C2, witness: two sample tokens of the user `"u1"`, used at two different times. -/
theorem C2_key_determinism_witness :
    deriveKey sampleKeyLib sampleSecret 5 sampleToken (js "u1") =
      deriveKey sampleKeyLib sampleSecret 15 sampleToken2 (js "u1") ∧
    deriveKey sampleKeyLib sampleSecret 5 sampleToken (js "u1") =
      .ok (sampleKeyLib.pbkdf2Sync (utf8Encode (sampleSecret ++ js "u1")) (deriveSalt (js "u1"))
        100000 32 .sha256) :=
  C2_key_determinism sampleKeyLib sampleSecret (js "u1") sampleToken sampleToken2 5 15
    (by decide) (by decide)

/-- C3. For every `userId`, when the session token cannot be verified against the
server secret (`jwt.verify` throws: expired, malformed or wrong signature), `deriveKey`
fails with its error and returns no key. -/
theorem C3_invalid_token (lib : KeyLib) (secret token userId : JSString) (now : Nat)
    (h : lib.jwtVerify token secret now = none) :
    deriveKey lib secret now token userId = .error .keyDerivationFailed := by
  rw [deriveKey_eq, h]
  rfl

/-- C3, witness: the sample token, expired at time 10, used at time 15. -/
theorem C3_invalid_token_witness :
    deriveKey sampleKeyLib sampleSecret 15 sampleToken (js "u1") = .error .keyDerivationFailed :=
  C3_invalid_token sampleKeyLib sampleSecret sampleToken (js "u1") 15 (by decide)

/-- C4 (as amended). With the empty string as `userId`, `deriveKey` fails exactly when
the token cannot be verified; for every token that verifies it succeeds and returns the
32-byte key derived from the server secret alone, with the salt of 32 characters `'0'`. -/
theorem C4_empty_user_id (lib : KeyLib) (secret token : JSString) (now : Nat) :
    deriveKey lib secret now token [] =
      (if (lib.jwtVerify token secret now).isSome then
        .ok (lib.pbkdf2Sync (utf8Encode secret) (List.replicate 32 (byte 48)) 100000 32 .sha256)
      else .error .keyDerivationFailed) ∧
    (lib.pbkdf2Sync (utf8Encode secret) (List.replicate 32 (byte 48)) 100000 32 .sha256).length
      = 32 := by
  refine ⟨?_, lib.pbkdf2Sync_length _ _ _ _ _⟩
  rw [deriveKey_eq, List.append_nil]
  have : deriveSalt [] = List.replicate 32 (byte 48) := by decide
  rw [this]

/-- C4, counterexample: on the sample platform, `deriveKey` with a valid token and the
empty user id returns a key. -/
theorem C4_empty_user_id_accepted :
    ∃ key, deriveKey sampleKeyLib sampleSecret 5 sampleToken [] = .ok key := by
  rw [deriveKey_eq, if_pos (by decide)]
  exact ⟨_, rfl⟩

/-- C5. Malformed IV: when the hexadecimal string `iv` does not decode to exactly 16
bytes, `decryptText` fails with the decryption error for an invalid IV and returns no
plaintext. The result is the same for every ciphertext, every key and every block
cipher: the call is rejected when the decipher is created, before any cipher operation. -/
theorem C5_malformed_iv (E : BlockCipher) (encryptedData iv : JSString) (key : Buffer)
    (h : (hexDecode iv).length ≠ 16) :
    decryptText E encryptedData iv key = .error (.decryptionFailed .invalidIV) := by
  have hc : createCipheriv key (hexDecode iv) = .error .invalidIV := by
    unfold createCipheriv
    rw [if_pos h]
  simp only [decryptText, hc]

/-- C5, witness: an IV of 15 bytes (30 hexadecimal characters). -/
theorem C5_malformed_iv_witness :
    decryptText shiftCipher (js "00112233445566778899aabbccddeeff")
      (js "00112233445566778899aabbccddee") sampleKey = .error (.decryptionFailed .invalidIV) :=
  C5_malformed_iv shiftCipher _ (js "00112233445566778899aabbccddee") sampleKey (by decide)

/-- C6. Envelope format: for every plaintext, every 32-byte key and every draw of 16
random bytes, `encryptText` returns `{ encrypted, iv }` where `iv` is the lowercase
hexadecimal encoding of the 16 random bytes and has exactly 32 characters, and
`encrypted` is a non-empty string of characters `[0-9a-f]` only. -/
theorem C6_envelope_format (E : BlockCipher) (p : JSString) (key rnd : Buffer)
    (hk : key.length = 32) (hr : rnd.length = 16) :
    ∃ env, encryptText E p key rnd = .ok env ∧
      env.iv = hexEncode rnd ∧ env.iv.length = 32 ∧
      (∀ c ∈ env.iv, isLowerHex c = true) ∧
      env.encrypted ≠ [] ∧ (∀ c ∈ env.encrypted, isLowerHex c = true) := by
  obtain ⟨_, hf, _, _⟩ := cipher_roundtrip E key rnd (utf8Encode p) hk hr
  refine ⟨_, encryptText_eq E p key rnd hk hr, rfl, ?_, hexEncode_lowerHex _, ?_,
    hexEncode_lowerHex _⟩
  · show (hexEncode rnd).length = 32
    rw [hexEncode_length, hr]
  · intro h
    have := congrArg List.length h
    simp only [hexEncode_length, List.length_append, List.length_nil] at this
    omega

/-- C6, witness: the envelope of `"hunter2"` on the sample cipher. -/
theorem C6_envelope_format_witness :
    ∃ env, encryptText shiftCipher (js "hunter2") sampleKey sampleIv = .ok env ∧
      env.iv = hexEncode sampleIv ∧ env.iv.length = 32 ∧
      (∀ c ∈ env.iv, isLowerHex c = true) ∧
      env.encrypted ≠ [] ∧ (∀ c ∈ env.encrypted, isLowerHex c = true) :=
  C6_envelope_format shiftCipher (js "hunter2") sampleKey sampleIv (by decide) (by decide)

theorem xorBytes_comm : ∀ a b : Buffer, xorBytes a b = xorBytes b a
  | [], [] => rfl
  | [], _ :: _ => rfl
  | _ :: _, [] => rfl
  | x :: a, y :: b => by
    have ih := xorBytes_comm a b
    simp only [xorBytes, List.zipWith_cons_cons] at ih ⊢
    rw [ih, Nat.xor_comm]

/-- The first block of the ciphertext: the encryption of the first plaintext block
(padded, when the plaintext is shorter than a block) xored with the IV. -/
theorem first_block (E : BlockCipher) (key iv m : Buffer) (hk : key.length = 32)
    (hiv : iv.length = 16) :
    (((CipherState.mk key iv []).update E m).2 ++
        ((CipherState.mk key iv []).update E m).1.final E).take 16 =
      E.encryptBlock key (xorBytes (if m.length < 16 then pkcs7Pad m else m.take 16) iv) := by
  simp only [CipherState.update, CipherState.final, List.nil_append]
  by_cases h : m.length < 16
  · have h0 : m.length / 16 = 0 := by omega
    simp only [h0, cbcEncryptBlocks, h, if_true, List.nil_append, Nat.mul_zero, List.drop_zero]
    apply List.take_of_length_le
    rw [E.encryptBlock_length key _ hk (by rw [xorBytes_length, pkcs7Pad_length m h, hiv]; rfl)]
  · obtain ⟨n, hn⟩ : ∃ n, m.length / 16 = n + 1 := ⟨m.length / 16 - 1, by omega⟩
    simp only [hn, cbcEncryptBlocks, h, if_false, List.append_assoc]
    apply List.take_left'
    apply E.encryptBlock_length key _ hk
    rw [xorBytes_length, List.length_take, hiv]
    omega

/-- C8. Fresh IV gives fresh ciphertext: for a fixed plaintext and a fixed 32-byte key,
two `encryptText` calls whose draws of 16 random bytes differ return different `iv`
strings and different `encrypted` strings. -/
theorem C8_fresh_iv (E : BlockCipher) (p : JSString) (key rnd1 rnd2 : Buffer)
    (hk : key.length = 32) (h1 : rnd1.length = 16) (h2 : rnd2.length = 16) (hne : rnd1 ≠ rnd2) :
    ∃ e1 e2, encryptText E p key rnd1 = .ok e1 ∧ encryptText E p key rnd2 = .ok e2 ∧
      e1.iv ≠ e2.iv ∧ e1.encrypted ≠ e2.encrypted := by
  refine ⟨_, _, encryptText_eq E p key rnd1 hk h1, encryptText_eq E p key rnd2 hk h2, ?_, ?_⟩
  · exact fun h => hne (hexEncode_injective _ _ h)
  · intro h
    have hb := congrArg (List.take 16) (hexEncode_injective _ _ h)
    rw [first_block E key rnd1 _ hk h1, first_block E key rnd2 _ hk h2] at hb
    have hlen : (if (utf8Encode p).length < 16 then pkcs7Pad (utf8Encode p)
        else (utf8Encode p).take 16).length = 16 := by
      split
      · exact pkcs7Pad_length _ (by assumption)
      · rw [List.length_take]; omega
    have hx1 := xorBytes_length (if (utf8Encode p).length < 16 then pkcs7Pad (utf8Encode p)
        else (utf8Encode p).take 16) rnd1
    have hx2 := xorBytes_length (if (utf8Encode p).length < 16 then pkcs7Pad (utf8Encode p)
        else (utf8Encode p).take 16) rnd2
    rw [hlen, h1] at hx1
    rw [hlen, h2] at hx2
    have hd := congrArg (E.decryptBlock key) hb
    rw [E.decrypt_encrypt key _ hk hx1, E.decrypt_encrypt key _ hk hx2,
      xorBytes_comm _ rnd1, xorBytes_comm _ rnd2] at hd
    exact hne (xorBytes_left_inj rnd1 rnd2 _ (by omega) (by omega) hd)

/-- C8, witness: two draws that differ in their first byte. -/
theorem C8_fresh_iv_witness :
    ∃ e1 e2, encryptText shiftCipher (js "hunter2") sampleKey sampleIv = .ok e1 ∧
      encryptText shiftCipher (js "hunter2") sampleKey (List.replicate 16 (byte 7)) = .ok e2 ∧
      e1.iv ≠ e2.iv ∧ e1.encrypted ≠ e2.encrypted :=
  C8_fresh_iv shiftCipher (js "hunter2") sampleKey sampleIv (List.replicate 16 (byte 7))
    (by decide) (by decide) (by decide) (by decide)

/-! ## UTF-8: decoding then encoding -/

theorem utf8Run_nil (st : Utf8State) : utf8Run st [] = (st, []) := rfl

/-- A run that starts inside a character, ends at a character boundary and emits no
U+FFFD has a next byte, and that byte is in the range the state allows. -/
theorem utf8Run_continues (st : Utf8State) (bs : Buffer) (hn : st.needed ≠ 0)
    (hfin : (utf8Run st bs).1.needed = 0) (hno : 0xFFFD ∉ (utf8Run st bs).2) :
    ∃ b rest, bs = b :: rest ∧ st.lower ≤ b.val ∧ b.val ≤ st.upper := by
  cases bs with
  | nil => exact absurd hfin hn
  | cons b rest =>
    refine ⟨b, rest, rfl, ?_⟩
    by_contra hr
    have hr' : b.val < st.lower ∨ st.upper < b.val := by omega
    rw [utf8Run_cons, utf8Step_reject st b hn hr'] at hno
    exact hno (List.mem_append_left _ (List.mem_cons_self _ _))

theorem utf8Run_last (st : Utf8State) (b : Byte) (rest : Buffer) (h0 : st.needed = 1)
    (h : st.lower ≤ b.val ∧ b.val ≤ st.upper) :
    utf8Run st (b :: rest) =
      ((utf8Run Utf8State.init rest).1,
       (st.codePoint * 0x40 + (b.val - 0x80)) :: (utf8Run Utf8State.init rest).2) := by
  rw [utf8Run_cons, utf8Step_last st b h0 h]
  rfl

theorem utf8Run_more (st : Utf8State) (b : Byte) (rest : Buffer) (h0 : 2 ≤ st.needed)
    (h : st.lower ≤ b.val ∧ b.val ≤ st.upper) :
    utf8Run st (b :: rest) =
      utf8Run { needed := st.needed - 1, codePoint := st.codePoint * 0x40 + (b.val - 0x80),
                lower := 0x80, upper := 0xBF } rest := by
  rw [utf8Run_cons, utf8Step_more st b h0 h]
  rfl

theorem utf8Run_start (b : Byte) (rest : Buffer) :
    utf8Run Utf8State.init (b :: rest) =
      ((utf8Run (utf8Start b).1 rest).1, (utf8Start b).2 ++ (utf8Run (utf8Start b).1 rest).2) := by
  rw [utf8Run_cons, utf8Step_init]


theorem encode_one (b0 : Byte) (h : b0.val ≤ 0x7F) : utf8EncodeCodePoint b0.val = [b0] := by
  unfold utf8EncodeCodePoint
  rw [if_pos (by omega), byte_eq _ b0 rfl]

theorem encode_two (b0 b1 : Byte) (h0 : 0xC2 ≤ b0.val ∧ b0.val ≤ 0xDF)
    (h1 : 0x80 ≤ b1.val ∧ b1.val ≤ 0xBF) :
    utf8EncodeCodePoint ((b0.val - 0xC0) * 0x40 + (b1.val - 0x80)) = [b0, b1] ∧
    IsScalar ((b0.val - 0xC0) * 0x40 + (b1.val - 0x80)) := by
  refine ⟨?_, by omega, by omega⟩
  unfold utf8EncodeCodePoint
  rw [if_neg (by omega), if_pos (by omega), byte_eq _ b0 (by omega), byte_eq _ b1 (by omega)]

theorem encode_three (b0 b1 b2 : Byte) (h0 : 0xE0 ≤ b0.val ∧ b0.val ≤ 0xEF)
    (h1 : secondLower b0 ≤ b1.val ∧ b1.val ≤ secondUpper b0)
    (h2 : 0x80 ≤ b2.val ∧ b2.val ≤ 0xBF) :
    utf8EncodeCodePoint (((b0.val - 0xE0) * 0x40 + (b1.val - 0x80)) * 0x40 + (b2.val - 0x80))
      = [b0, b1, b2] ∧
    IsScalar (((b0.val - 0xE0) * 0x40 + (b1.val - 0x80)) * 0x40 + (b2.val - 0x80)) := by
  have hl : (if b0.val = 0xE0 then 0xA0 else 0x80) ≤ b1.val := by
    have := h1.1; unfold secondLower at this; split_ifs at this ⊢ <;> omega
  have hu : b1.val ≤ (if b0.val = 0xED then 0x9F else 0xBF) := by
    have := h1.2; unfold secondUpper at this; split_ifs at this ⊢ <;> omega
  refine ⟨?_, by split_ifs at hl hu <;> omega, by split_ifs at hl hu <;> omega⟩
  unfold utf8EncodeCodePoint
  rw [if_neg (by split_ifs at hl hu <;> omega), if_neg (by split_ifs at hl hu <;> omega),
    if_pos (by split_ifs at hl hu <;> omega), byte_eq _ b0 (by split_ifs at hl hu <;> omega),
    byte_eq _ b1 (by split_ifs at hl hu <;> omega), byte_eq _ b2 (by split_ifs at hl hu <;> omega)]

theorem encode_four (b0 b1 b2 b3 : Byte) (h0 : 0xF0 ≤ b0.val ∧ b0.val ≤ 0xF4)
    (h1 : secondLower b0 ≤ b1.val ∧ b1.val ≤ secondUpper b0)
    (h2 : 0x80 ≤ b2.val ∧ b2.val ≤ 0xBF) (h3 : 0x80 ≤ b3.val ∧ b3.val ≤ 0xBF) :
    utf8EncodeCodePoint ((((b0.val - 0xF0) * 0x40 + (b1.val - 0x80)) * 0x40 + (b2.val - 0x80)) * 0x40
      + (b3.val - 0x80)) = [b0, b1, b2, b3] ∧
    IsScalar ((((b0.val - 0xF0) * 0x40 + (b1.val - 0x80)) * 0x40 + (b2.val - 0x80)) * 0x40
      + (b3.val - 0x80)) := by
  have hl : (if b0.val = 0xF0 then 0x90 else 0x80) ≤ b1.val := by
    have := h1.1; unfold secondLower at this; split_ifs at this ⊢ <;> omega
  have hu : b1.val ≤ (if b0.val = 0xF4 then 0x8F else 0xBF) := by
    have := h1.2; unfold secondUpper at this; split_ifs at this ⊢ <;> omega
  refine ⟨?_, by split_ifs at hl hu <;> omega, by split_ifs at hl hu <;> omega⟩
  unfold utf8EncodeCodePoint
  rw [if_neg (by split_ifs at hl hu <;> omega), if_neg (by split_ifs at hl hu <;> omega),
    if_neg (by split_ifs at hl hu <;> omega), byte_eq _ b0 (by split_ifs at hl hu <;> omega),
    byte_eq _ b1 (by split_ifs at hl hu <;> omega), byte_eq _ b2 (by split_ifs at hl hu <;> omega),
    byte_eq _ b3 (by split_ifs at hl hu <;> omega)]


theorem second_range3 (b0 b1 : Byte) (h0 : 0xE0 ≤ b0.val ∧ b0.val ≤ 0xEF)
    (h : (if b0.val = 0xE0 then 0xA0 else 0x80) ≤ b1.val ∧
      b1.val ≤ (if b0.val = 0xED then 0x9F else 0xBF)) :
    secondLower b0 ≤ b1.val ∧ b1.val ≤ secondUpper b0 := by
  unfold secondLower secondUpper
  split_ifs at h ⊢ <;> omega

theorem second_range4 (b0 b1 : Byte) (h0 : 0xF0 ≤ b0.val ∧ b0.val ≤ 0xF4)
    (h : (if b0.val = 0xF0 then 0x90 else 0x80) ≤ b1.val ∧
      b1.val ≤ (if b0.val = 0xF4 then 0x8F else 0xBF)) :
    secondLower b0 ≤ b1.val ∧ b1.val ≤ secondUpper b0 := by
  unfold secondLower secondUpper
  split_ifs at h ⊢ <;> omega

/-- A buffer that decodes without U+FFFD and without a truncated character is the
UTF-8 encoding of the code points it decodes to, and these are scalar values. -/
theorem utf8Run_faithful : ∀ (n : Nat) (bs : Buffer), bs.length ≤ n →
    (utf8Run Utf8State.init bs).1.needed = 0 → 0xFFFD ∉ (utf8Run Utf8State.init bs).2 →
    (utf8Run Utf8State.init bs).2.flatMap utf8EncodeCodePoint = bs ∧
    ∀ cp ∈ (utf8Run Utf8State.init bs).2, IsScalar cp := by
  intro n
  induction n with
  | zero =>
    intro bs hl _ _
    have : bs = [] := List.length_eq_zero.mp (by omega)
    subst this
    simp [utf8Run]
  | succ n ih =>
    intro bs hl hfin hno
    cases bs with
    | nil => simp [utf8Run]
    | cons b0 rest =>
      have hb0 : b0.val < 256 := b0.isLt
      have hl' : rest.length ≤ n := by simpa using hl
      have key : ∀ (k : Buffer) (cp : Nat) (tail : Buffer), rest.length ≥ tail.length →
          utf8Run Utf8State.init (b0 :: rest) =
            ((utf8Run Utf8State.init tail).1, cp :: (utf8Run Utf8State.init tail).2) →
          utf8EncodeCodePoint cp = k → IsScalar cp → b0 :: rest = k ++ tail →
          (utf8Run Utf8State.init (b0 :: rest)).2.flatMap utf8EncodeCodePoint = b0 :: rest ∧
          ∀ c ∈ (utf8Run Utf8State.init (b0 :: rest)).2, IsScalar c := by
        intro k cp tail hlen hrun henc hsc hsplit
        rw [hrun] at hfin hno ⊢
        simp only [List.mem_cons, not_or] at hno
        obtain ⟨e, s⟩ := ih tail (by omega) hfin hno.2
        refine ⟨by rw [List.flatMap_cons, e, henc, hsplit], ?_⟩
        intro c hc
        rcases List.mem_cons.mp hc with h | h
        · rw [h]; exact hsc
        · exact s c h
      by_cases c1 : b0.val ≤ 0x7F
      · exact key [b0] b0.val rest (Nat.le_refl _) (utf8Run_ascii b0 rest c1) (encode_one b0 c1)
          ⟨by omega, by omega⟩ rfl
      by_cases c2 : 0xC2 ≤ b0.val ∧ b0.val ≤ 0xDF
      · have hfin2 := hfin
        have hno2 := hno
        rw [utf8Run_start, utf8Start_lead2 b0 c2] at hfin2 hno2
        obtain ⟨b1, r1, rfl, h1⟩ := utf8Run_continues _ rest (by simp) hfin2 hno2
        have e := encode_two b0 b1 c2 h1
        exact key [b0, b1] _ r1 (by simp) (utf8Run_two b0 b1 r1 c2 h1) e.1 e.2 rfl
      by_cases c3 : 0xE0 ≤ b0.val ∧ b0.val ≤ 0xEF
      · have hfin2 := hfin
        have hno2 := hno
        rw [utf8Run_start, utf8Start_lead3 b0 c3] at hfin2 hno2
        obtain ⟨b1, r1, rfl, h1⟩ := utf8Run_continues _ rest (by simp) hfin2 hno2
        rw [List.nil_append, utf8Run_more _ b1 r1 (Nat.le_refl 2) h1] at hno2
        rw [utf8Run_more _ b1 r1 (Nat.le_refl 2) h1] at hfin2
        obtain ⟨b2, r2, rfl, h2⟩ := utf8Run_continues _ r1 (by simp) hfin2 hno2
        have h1' := second_range3 b0 b1 c3 h1
        have e := encode_three b0 b1 b2 c3 h1' h2
        exact key [b0, b1, b2] _ r2 (by simp; omega) (utf8Run_three b0 b1 b2 r2 c3 h1' h2) e.1 e.2 rfl
      by_cases c4 : 0xF0 ≤ b0.val ∧ b0.val ≤ 0xF4
      · have hfin2 := hfin
        have hno2 := hno
        rw [utf8Run_start, utf8Start_lead4 b0 c4] at hfin2 hno2
        obtain ⟨b1, r1, rfl, h1⟩ := utf8Run_continues _ rest (by simp) hfin2 hno2
        rw [List.nil_append, utf8Run_more _ b1 r1 (by show 2 ≤ 3; omega) h1] at hno2
        rw [utf8Run_more _ b1 r1 (by show 2 ≤ 3; omega) h1] at hfin2
        obtain ⟨b2, r2, rfl, h2⟩ := utf8Run_continues _ r1 (by simp) hfin2 hno2
        rw [utf8Run_more _ b2 r2 (Nat.le_refl 2) h2] at hno2 hfin2
        obtain ⟨b3, r3, rfl, h3⟩ := utf8Run_continues _ r2 (by simp) hfin2 hno2
        have h1' := second_range4 b0 b1 c4 h1
        have e := encode_four b0 b1 b2 b3 c4 h1' h2 h3
        exact key [b0, b1, b2, b3] _ r3 (by simp; omega) (utf8Run_four b0 b1 b2 b3 r3 c4 h1' h2 h3)
          e.1 e.2 rfl
      · exfalso
        rw [utf8Run_start, utf8Start_invalid b0 (by omega)] at hno
        exact hno (List.mem_append_left _ (List.mem_cons_self _ _))

theorem utf16Decode_cons_bmp (u : CodeUnit) (rest : JSString)
    (h : ¬ (0xD800 ≤ u.val ∧ u.val ≤ 0xDFFF)) :
    utf16Decode (u :: rest) = u.val :: utf16Decode rest := by
  have hh : isHighSurrogate u = false := by
    simp only [isHighSurrogate, Bool.and_eq_false_iff, decide_eq_false_iff_not]; omega
  have hl : isLowSurrogate u = false := by
    simp only [isLowSurrogate, Bool.and_eq_false_iff, decide_eq_false_iff_not]; omega
  cases rest with
  | nil => simp [utf16Decode, hh, hl]
  | cons v r => simp [utf16Decode, hh, hl]

theorem utf16Decode_utf16Encode : ∀ cps : List Nat, (∀ cp ∈ cps, IsScalar cp) →
    utf16Decode (utf16Encode cps) = cps
  | [], _ => rfl
  | cp :: cps, h => by
    have ih := utf16Decode_utf16Encode cps (fun c hc => h c (List.mem_cons_of_mem _ hc))
    obtain ⟨hmax, hsur⟩ := h cp (List.mem_cons_self _ _)
    by_cases c : cp < 0x10000
    · have e1 : utf16EncodeCodePoint cp = [unit16 cp] := by
        unfold utf16EncodeCodePoint; rw [if_pos c]
      have hv : (unit16 cp).val = cp := by simp only [unit16]; omega
      show utf16Decode (utf16EncodeCodePoint cp ++ utf16Encode cps) = _
      rw [e1]
      show utf16Decode (unit16 cp :: utf16Encode cps) = _
      rw [utf16Decode_cons_bmp _ _ (by rw [hv]; exact hsur), ih, hv]
    · have e1 : utf16EncodeCodePoint cp = [unit16 (0xD800 + (cp - 0x10000) / 0x400),
          unit16 (0xDC00 + (cp - 0x10000) % 0x400)] := by
        unfold utf16EncodeCodePoint; rw [if_neg c]
      have h1 : (unit16 (0xD800 + (cp - 0x10000) / 0x400)).val = 0xD800 + (cp - 0x10000) / 0x400 := by
        simp only [unit16]; omega
      have h2 : (unit16 (0xDC00 + (cp - 0x10000) % 0x400)).val = 0xDC00 + (cp - 0x10000) % 0x400 := by
        simp only [unit16]; omega
      have hh : isHighSurrogate (unit16 (0xD800 + (cp - 0x10000) / 0x400)) = true := by
        simp only [isHighSurrogate, h1, Bool.and_eq_true, decide_eq_true_eq]; omega
      have hl : isLowSurrogate (unit16 (0xDC00 + (cp - 0x10000) % 0x400)) = true := by
        simp only [isLowSurrogate, h2, Bool.and_eq_true, decide_eq_true_eq]; omega
      have hcp : 0x10000 + ((unit16 (0xD800 + (cp - 0x10000) / 0x400)).val - 0xD800) * 0x400 +
          ((unit16 (0xDC00 + (cp - 0x10000) % 0x400)).val - 0xDC00) = cp := by
        rw [h1, h2]; omega
      show utf16Decode (utf16EncodeCodePoint cp ++ utf16Encode cps) = _
      rw [e1]
      show utf16Decode (unit16 (0xD800 + (cp - 0x10000) / 0x400) ::
        unit16 (0xDC00 + (cp - 0x10000) % 0x400) :: utf16Encode cps) = _
      rw [utf16Decode, if_pos hh, if_pos hl, ih, hcp]

theorem mem_utf16Encode_replacement (cps : List Nat) (h : 0xFFFD ∈ cps) :
    unit16 0xFFFD ∈ utf16Encode cps := by
  simp only [utf16Encode, List.mem_flatMap]
  exact ⟨0xFFFD, h, by decide⟩

/-- A buffer whose text contains no U+FFFD is the UTF-8 encoding of its text. -/
theorem utf8Encode_utf8Decode (b : Buffer) (h : unit16 0xFFFD ∉ utf8Decode b) :
    utf8Encode (utf8Decode b) = b := by
  simp only [utf8Decode, StringDecoder.end, StringDecoder.write] at h ⊢
  have hfin : (utf8Run Utf8State.init b).1.needed = 0 := by
    by_contra hc
    rw [if_neg hc] at h
    exact h (List.mem_append_right _ (List.mem_singleton.mpr rfl))
  rw [if_pos hfin, List.append_nil] at h ⊢
  have hno : 0xFFFD ∉ (utf8Run Utf8State.init b).2 :=
    fun hc => h (mem_utf16Encode_replacement _ hc)
  obtain ⟨e, s⟩ := utf8Run_faithful b.length b (Nat.le_refl _) hfin hno
  rw [utf8Encode, utf16Decode_utf16Encode _ s, e]

/-! ## Decryption under another key -/

theorem cbcDecrypt_chain (E : BlockCipher) (k1 k2 : Buffer) : ∀ (n : Nat) (c d : Buffer),
    (cbcDecryptBlocks E k2 n c d).2 = (cbcDecryptBlocks E k1 n c d).2
  | 0, _, _ => rfl
  | n + 1, c, d => by
    simp only [cbcDecryptBlocks]
    exact cbcDecrypt_chain E k1 k2 n _ _

theorem cbcDecrypt_length (E : BlockCipher) (k : Buffer) (hk : k.length = 32) :
    ∀ (n : Nat) (c d : Buffer), c.length = 16 → 16 * n ≤ d.length →
      (cbcDecryptBlocks E k n c d).1.length = 16 * n
  | 0, _, _, _, _ => rfl
  | n + 1, c, d, hc, hd => by
    have ht : (d.take 16).length = 16 := by rw [List.length_take]; omega
    have hdl : 16 * n ≤ (d.drop 16).length := by rw [List.length_drop]; omega
    have ih := cbcDecrypt_length E k hk n (d.take 16) (d.drop 16) ht hdl
    simp only [cbcDecryptBlocks, List.length_append, xorBytes_length,
      E.decryptBlock_length k _ hk ht, hc, ih]
    omega

/-- When two keys decrypt the first `n` blocks of `d` to the same plaintext, they
decrypt each of these blocks to the same block. -/
theorem cbcDecrypt_blocks_agree (E : BlockCipher) (k1 k2 : Buffer) (h1 : k1.length = 32)
    (h2 : k2.length = 32) : ∀ (n : Nat) (c d : Buffer), c.length = 16 → 16 * n ≤ d.length →
      (cbcDecryptBlocks E k2 n c d).1 = (cbcDecryptBlocks E k1 n c d).1 →
      ∀ i, i < n → E.decryptBlock k2 ((d.drop (16 * i)).take 16) =
        E.decryptBlock k1 ((d.drop (16 * i)).take 16)
  | 0, _, _, _, _, _, i, hi => absurd hi (Nat.not_lt_zero i)
  | n + 1, c, d, hc, hd, heq, i, hi => by
    have ht : (d.take 16).length = 16 := by rw [List.length_take]; omega
    simp only [cbcDecryptBlocks] at heq
    have hl2 : (xorBytes (E.decryptBlock k2 (d.take 16)) c).length = 16 := by
      rw [xorBytes_length, E.decryptBlock_length k2 _ h2 ht, hc]; rfl
    have hl1 : (xorBytes (E.decryptBlock k1 (d.take 16)) c).length = 16 := by
      rw [xorBytes_length, E.decryptBlock_length k1 _ h1 ht, hc]; rfl
    obtain ⟨hhead, htail⟩ := List.append_inj heq (hl2.trans hl1.symm)
    cases i with
    | zero =>
      simp only [Nat.mul_zero, List.drop_zero]
      exact xorBytes_left_inj _ _ c
        ((E.decryptBlock_length k2 _ h2 ht).trans (E.decryptBlock_length k1 _ h1 ht).symm)
        (by rw [E.decryptBlock_length k2 _ h2 ht, hc]) hhead
    | succ j =>
      have := cbcDecrypt_blocks_agree E k1 k2 h1 h2 n (d.take 16) (d.drop 16) ht
        (by rw [List.length_drop]; omega) htail j (by omega)
      rw [List.drop_drop] at this
      have e : 16 * (j + 1) = 16 + 16 * j := by omega
      rw [e]
      exact this

theorem pkcs7Unpad_eq (x l : Buffer) (hx : x.length = 16) (h : pkcs7Unpad x = .ok l) :
    x = pkcs7Pad l := by
  unfold pkcs7Unpad at h
  cases hlast : x.getLast? with
  | none => rw [hlast] at h; cases h
  | some v =>
    rw [hlast] at h
    simp only at h
    have hv : v.val < 256 := v.isLt
    by_cases c1 : v.val = 0 ∨ 16 < v.val
    · rw [if_pos c1] at h; cases h
    · rw [if_neg c1] at h
      by_cases c2 : (x.drop (x.length - v.val)).all (fun b => b = v) = true
      · rw [if_pos c2] at h
        have hl : l = x.take (x.length - v.val) := (Except.ok.inj h).symm
        have hll : l.length = 16 - v.val := by rw [hl, List.length_take, hx]; omega
        have hd : x.drop (x.length - v.val) = List.replicate v.val v := by
          apply List.eq_replicate_iff.mpr
          refine ⟨by rw [List.length_drop, hx]; omega, ?_⟩
          intro b hb
          have := List.all_eq_true.mp c2 b hb
          simpa using this
        unfold pkcs7Pad
        have e1 : 16 - l.length = v.val := by omega
        rw [e1, byte_eq v.val v rfl, ← hd, hl, List.take_append_drop]
      · rw [if_neg c2] at h; cases h

/-- `decryptText` on a ciphertext of `n + 1` blocks: the first `n` blocks are decrypted by
`update`, the last one by `final`, which checks and removes the padding. -/
theorem decryptText_blocks (E : BlockCipher) (k rnd ct : Buffer) (hk : k.length = 32)
    (hr : rnd.length = 16) (n : Nat) (hct : ct.length = 16 * (n + 1)) :
    decryptText E (hexEncode ct) (hexEncode rnd) k =
      match pkcs7Unpad (xorBytes (E.decryptBlock k (ct.drop (16 * n)))
          (cbcDecryptBlocks E k n rnd ct).2) with
      | .error e => .error (.decryptionFailed e)
      | .ok last => .ok (utf8Decode ((cbcDecryptBlocks E k n rnd ct).1 ++ last)) := by
  have hn : (ct.length - 1) / 16 = n := by omega
  have hp : (ct.drop (16 * n)).length = 16 := by rw [List.length_drop]; omega
  simp only [decryptText, hexDecode_hexEncode, createCipheriv_ok k rnd hk hr, hexEncode_length]
  rw [if_neg (by omega)]
  simp only [CipherState.decipherUpdate, CipherState.decipherFinal, List.nil_append, hn]
  rw [if_neg (by rw [hp]; simp)]
  cases pkcs7Unpad (xorBytes (E.decryptBlock k (ct.drop (16 * n)))
      (cbcDecryptBlocks E k n rnd ct).2) with
  | error e => rfl
  | ok last => simp only [stringDecoder_write_end]

/-- C7 (as amended). Cross-key: for every plaintext `p` that contains no U+FFFD and all
32-byte keys `k1`, `k2` such that the block cipher under `k2` decrypts at least one
16-byte block of the ciphertext differently from `k1`, `decryptText` under `k2` of what
`encryptText` returned under `k1` never returns `p`: it fails with a decryption error or
returns a different string. -/
theorem C7_cross_key (E : BlockCipher) (p : JSString) (k1 k2 rnd : Buffer)
    (hk1 : k1.length = 32) (hk2 : k2.length = 32) (hr : rnd.length = 16)
    (hp : unit16 0xFFFD ∉ p) (env : Envelope) (henc : encryptText E p k1 rnd = .ok env)
    (hdiff : ∃ i, 16 * i < (hexDecode env.encrypted).length ∧
      E.decryptBlock k2 (((hexDecode env.encrypted).drop (16 * i)).take 16) ≠
        E.decryptBlock k1 (((hexDecode env.encrypted).drop (16 * i)).take 16)) :
    decryptText E env.encrypted env.iv k2 ≠ .ok p := by
  rw [encryptText_eq E p k1 rnd hk1 hr] at henc
  cases henc
  simp only [hexDecode_hexEncode] at hdiff
  simp only [CipherState.update, CipherState.final, List.nil_append] at hdiff ⊢
  -- the pieces of the ciphertext
  have hmul := Nat.mul_div_le (utf8Encode p).length 16
  have hpl : ((utf8Encode p).drop (16 * ((utf8Encode p).length / 16))).length < 16 := by
    rw [List.length_drop]; omega
  obtain ⟨r1, r2, _⟩ := cbc_blocks_roundtrip E k1 hk1 ((utf8Encode p).length / 16) rnd
    (utf8Encode p) [] hr hmul
  have hx : (xorBytes (pkcs7Pad ((utf8Encode p).drop (16 * ((utf8Encode p).length / 16))))
      (cbcEncryptBlocks E k1 ((utf8Encode p).length / 16) rnd (utf8Encode p)).2).length = 16 := by
    rw [xorBytes_length, pkcs7Pad_length _ hpl, r2]; rfl
  have hf := E.encryptBlock_length k1 _ hk1 hx
  obtain ⟨_, _, r3⟩ := cbc_blocks_roundtrip E k1 hk1 ((utf8Encode p).length / 16) rnd
    (utf8Encode p) (E.encryptBlock k1 (xorBytes (pkcs7Pad ((utf8Encode p).drop
      (16 * ((utf8Encode p).length / 16))))
      (cbcEncryptBlocks E k1 ((utf8Encode p).length / 16) rnd (utf8Encode p)).2)) hr hmul
  generalize hct : (cbcEncryptBlocks E k1 ((utf8Encode p).length / 16) rnd (utf8Encode p)).1 ++
    E.encryptBlock k1 (xorBytes (pkcs7Pad ((utf8Encode p).drop
      (16 * ((utf8Encode p).length / 16))))
      (cbcEncryptBlocks E k1 ((utf8Encode p).length / 16) rnd (utf8Encode p)).2) = ct
    at hdiff r3 ⊢
  have hlen : ct.length = 16 * ((utf8Encode p).length / 16 + 1) := by
    rw [← hct, List.length_append, r1, hf]; omega
  have hlast : ct.drop (16 * ((utf8Encode p).length / 16)) =
      E.encryptBlock k1 (xorBytes (pkcs7Pad ((utf8Encode p).drop
        (16 * ((utf8Encode p).length / 16))))
        (cbcEncryptBlocks E k1 ((utf8Encode p).length / 16) rnd (utf8Encode p)).2) := by
    rw [← hct, List.drop_left' r1]
  intro hdec
  rw [decryptText_blocks E k2 rnd ct hk2 hr _ hlen, cbcDecrypt_chain E k1 k2, r3] at hdec
  simp only at hdec
  cases hun : pkcs7Unpad (xorBytes (E.decryptBlock k2 (ct.drop (16 * ((utf8Encode p).length / 16))))
      (cbcEncryptBlocks E k1 ((utf8Encode p).length / 16) rnd (utf8Encode p)).2) with
  | error e => rw [hun] at hdec; cases hdec
  | ok last =>
    rw [hun] at hdec
    have htext : utf8Decode ((cbcDecryptBlocks E k2 ((utf8Encode p).length / 16) rnd ct).1 ++ last)
        = p := Except.ok.inj hdec
    have hbytes := utf8Encode_utf8Decode _ (by rw [htext]; exact hp)
    rw [htext] at hbytes
    have hol := cbcDecrypt_length E k2 hk2 ((utf8Encode p).length / 16) rnd ct hr
      (by rw [hlen]; omega)
    -- the two parts of the decrypted bytes
    have hout : (cbcDecryptBlocks E k2 ((utf8Encode p).length / 16) rnd ct).1 =
        (utf8Encode p).take (16 * ((utf8Encode p).length / 16)) := by
      have := congrArg (List.take (16 * ((utf8Encode p).length / 16))) hbytes
      rw [List.take_left' hol] at this
      exact this.symm
    have hlst : last = (utf8Encode p).drop (16 * ((utf8Encode p).length / 16)) := by
      have := congrArg (List.drop (16 * ((utf8Encode p).length / 16))) hbytes
      rw [List.drop_left' hol] at this
      exact this.symm
    have hdl : (E.decryptBlock k2 (ct.drop (16 * ((utf8Encode p).length / 16)))).length = 16 :=
      E.decryptBlock_length k2 _ hk2 (by rw [hlast]; exact hf)
    have hpad := pkcs7Unpad_eq _ _ (by rw [xorBytes_length, hdl, r2]; rfl) hun
    obtain ⟨i, hi, hne⟩ := hdiff
    apply hne
    by_cases hin : i < (utf8Encode p).length / 16
    · exact cbcDecrypt_blocks_agree E k1 k2 hk1 hk2 _ rnd ct hr (by rw [hlen]; omega)
        (by rw [hout, r3]) i hin
    · have hie : i = (utf8Encode p).length / 16 := by omega
      rw [hie, List.take_of_length_le (by rw [hlast, hf])]
      have h1 : xorBytes (E.decryptBlock k1 (ct.drop (16 * ((utf8Encode p).length / 16))))
          (cbcEncryptBlocks E k1 ((utf8Encode p).length / 16) rnd (utf8Encode p)).2 =
          pkcs7Pad last := by
        rw [hlast, E.decrypt_encrypt k1 _ hk1 hx, xorBytes_cancel _ _
          (by rw [pkcs7Pad_length _ hpl, r2]), hlst]
      exact xorBytes_left_inj _ _ _
        (hdl.trans (E.decryptBlock_length k1 _ hk1 (by rw [hlast]; exact hf)).symm)
        (by rw [hdl, r2]) (hpad.trans h1.symm)

/-- C7, witness: `"hunter2"` sealed under the sample key and opened under a key with a
different first byte, which the sample cipher decrypts differently. -/
theorem C7_cross_key_witness :
    decryptText shiftCipher sampleEnvelope.encrypted sampleEnvelope.iv sampleKey2 ≠
      .ok (js "hunter2") :=
  C7_cross_key shiftCipher (js "hunter2") sampleKey sampleKey2 sampleIv (by decide) (by decide)
    (by decide) (by decide) sampleEnvelope (by rfl) ⟨0, by decide, by decide⟩

/-- Two keys that encrypt the padded empty plaintext to the same block give the same
envelope. -/
theorem encryptText_empty (E : BlockCipher) (k rnd : Buffer) (hk : k.length = 32)
    (hr : rnd.length = 16) :
    encryptText E [] k rnd = .ok
      { encrypted := hexEncode (E.encryptBlock k (xorBytes (pkcs7Pad []) rnd)),
        iv := hexEncode rnd } := by
  rw [encryptText_eq E [] k rnd hk hr]
  simp [CipherState.update, CipherState.final, utf8Encode, utf16Decode, cbcEncryptBlocks]

/-- C7, counterexample: no block cipher with 32-byte keys and 16-byte blocks satisfies
the claim. There are more keys than blocks, so two distinct keys encrypt the padded
empty plaintext (under the sample IV) to the same block; the envelope sealed under the
first is then the envelope sealed under the second, which the second key opens to the
plaintext. -/
theorem C7_key_collision :
    ¬ ∃ E : BlockCipher, ∀ (p : JSString) (k1 k2 rnd : Buffer) (env : Envelope),
      k1.length = 32 → k2.length = 32 → k1 ≠ k2 → rnd.length = 16 →
      encryptText E p k1 rnd = .ok env → decryptText E env.encrypted env.iv k2 ≠ .ok p := by
  rintro ⟨E, h⟩
  have hx : (xorBytes (pkcs7Pad []) sampleIv).length = 16 := by decide
  let f : Mathlib.Vector Byte 32 → Mathlib.Vector Byte 16 := fun k =>
    ⟨E.encryptBlock k.1 (xorBytes (pkcs7Pad []) sampleIv), E.encryptBlock_length k.1 _ k.2 hx⟩
  obtain ⟨k1, k2, hne, heq⟩ := Fintype.exists_ne_map_eq_of_card_lt f (by
    rw [card_vector, card_vector, Fintype.card_fin]
    norm_num)
  have hb : E.encryptBlock k1.1 (xorBytes (pkcs7Pad []) sampleIv) =
      E.encryptBlock k2.1 (xorBytes (pkcs7Pad []) sampleIv) := congrArg Subtype.val heq
  have hiv : sampleIv.length = 16 := by decide
  obtain ⟨env, h1, h2⟩ := decryptText_encryptText E [] k2.1 sampleIv k2.2 hiv
  have h3 : encryptText E [] k1.1 sampleIv = .ok env := by
    rw [encryptText_empty E k1.1 sampleIv k1.2 hiv, hb, ← encryptText_empty E k2.1 sampleIv k2.2 hiv]
    exact h1
  exact h [] k1.1 k2.1 sampleIv env k1.2 k2.2 (fun hc => hne (Subtype.ext hc)) hiv h3 h2

/-! ## The credential routes -/

theorem castCredential_some (id : ObjectId) (c : CredentialInput) (doc : CredentialDoc)
    (h : castCredential id c = some doc) :
    ∃ owner, castObjectId c.userId = some owner ∧
      doc = { _id := id, userId := owner, website := trim c.website, username := trim c.username,
              passwordEncrypted := c.passwordEncrypted, iv := c.iv,
              tags := (c.tags.getD []).map trim } := by
  unfold castCredential at h
  cases ho : castObjectId c.userId with
  | none => rw [ho] at h; cases h
  | some owner =>
    rw [ho] at h
    simp only at h
    split at h
    · cases h
    · exact ⟨owner, rfl, (Option.some.inj h).symm⟩

/-- A POST answered 201: the key was derived, the password sealed by one `encryptText`
call, and the document built from the request and the envelope was appended. -/
theorem postCredential_created (P : Platform) (db db2 : Collection) (req : Request)
    (doc : CredentialDoc) (h : postCredential P db req = (db2, .created doc)) :
    ∃ key env owner,
      deriveKey P.lib P.secret P.now req.cookieToken req.userId = .ok key ∧
      encryptText P.cipher (req.body.password.getD []) key P.randomBytes = .ok env ∧
      castObjectId req.userId = some owner ∧
      doc = { _id := P.freshId, userId := owner, website := trim (req.body.website.getD []),
              username := trim (req.body.username.getD []),
              passwordEncrypted := env.encrypted, iv := env.iv,
              tags := (req.body.tags.getD []).map trim } ∧
      db2 = db ++ [doc] := by
  unfold postCredential at h
  split at h
  · cases h
  · split at h
    · cases h
    · rename_i key hkey
      split at h
      · cases h
      · rename_i env henv
        simp only at h
        split at h
        · cases h
        · rename_i dbx saved hsave
          unfold saveNew at hsave
          split at hsave
          · cases hsave
          · rename_i d hcast
            split at hsave
            · cases hsave
            · obtain ⟨owner, ho, hd⟩ := castCredential_some _ _ _ hcast
              simp only [Option.some.injEq, Prod.mk.injEq] at hsave
              simp only [Prod.mk.injEq, Response.created.injEq] at h
              obtain ⟨hs1, hs2⟩ := hsave
              obtain ⟨h1, h2⟩ := h
              subst hs2 h2
              refine ⟨key, env, owner, hkey, henv, ho, hd, ?_⟩
              rw [← h1, ← hs1]

/-- A PUT answered 200: the stored credential was found and is owned by the caller, the
key was derived, the password sealed by one `encryptText` call, and the stored document
replaced by the one built from the request and the envelope. -/
theorem putCredential_ok (P : Platform) (db db2 : Collection) (req : Request)
    (doc : CredentialDoc) (h : putCredential P db req = (db2, .ok doc)) :
    ∃ credential key env owner,
      findById db req.paramId = some (some credential) ∧ credential.userId = req.userId ∧
      deriveKey P.lib P.secret P.now req.cookieToken req.userId = .ok key ∧
      encryptText P.cipher (req.body.password.getD []) key P.randomBytes = .ok env ∧
      castObjectId credential.userId = some owner ∧
      doc = { _id := credential._id, userId := owner,
              website := trim (req.body.website.getD []),
              username := trim (req.body.username.getD []),
              passwordEncrypted := env.encrypted, iv := env.iv,
              tags := (req.body.tags.getD []).map trim } ∧
      db2 = db.map (fun d => if d._id = credential._id then doc else d) := by
  unfold putCredential at h
  split at h
  · cases h
  · split at h
    · cases h
    · cases h
    · rename_i credential hfind
      split at h
      · cases h
      · rename_i hown
        split at h
        · cases h
        · rename_i key hkey
          split at h
          · cases h
          · rename_i env henv
            simp only at h
            split at h
            · cases h
            · rename_i dbx saved hsave
              unfold saveExisting at hsave
              split at hsave
              · cases hsave
              · rename_i d hcast
                split at hsave
                · cases hsave
                · obtain ⟨owner, ho, hd⟩ := castCredential_some _ _ _ hcast
                  simp only [Option.some.injEq, Prod.mk.injEq] at hsave
                  simp only [Prod.mk.injEq, Response.ok.injEq] at h
                  obtain ⟨hs1, hs2⟩ := hsave
                  obtain ⟨h1, h2⟩ := h
                  subst hs2 h2
                  refine ⟨credential, key, env, owner, hfind, ?_, hkey, henv, ho, hd, ?_⟩
                  · exact Decidable.of_not_not hown
                  · rw [← h1, ← hs1]

theorem findById_mem (db : Collection) (id : JSString) (c : CredentialDoc)
    (h : findById db id = some (some c)) : c ∈ db := by
  unfold findById at h
  split at h
  · cases h
  · exact List.mem_of_find?_eq_some (Option.some.inj h)

theorem mem_map_replace (db : Collection) (c doc : CredentialDoc) (hc : c ∈ db) :
    doc ∈ db.map (fun d => if d._id = c._id then doc else d) :=
  List.mem_map.mpr ⟨c, hc, by simp⟩

/-- The key that a successful request derived has 32 bytes. -/
theorem deriveKey_length (lib : KeyLib) (secret token userId : JSString) (now : Nat)
    (key : Buffer) (h : deriveKey lib secret now token userId = .ok key) : key.length = 32 := by
  rw [deriveKey_eq] at h
  split at h
  · rw [← Except.ok.inj h]; exact lib.pbkdf2Sync_length _ _ _ _ _
  · cases h

/-- A successful `encryptText` call was given a 32-byte key and a 16-byte IV. -/
theorem encryptText_ok_lengths (E : BlockCipher) (p : JSString) (key rnd : Buffer)
    (env : Envelope) (h : encryptText E p key rnd = .ok env) :
    key.length = 32 ∧ rnd.length = 16 := by
  unfold encryptText createCipheriv at h
  by_cases h1 : rnd.length = 16
  · by_cases h2 : key.length = 32
    · exact ⟨h2, h1⟩
    · simp [h1, h2] at h
  · simp [h1] at h

/-- A POST either leaves the collection as it was or is answered 201. -/
theorem postCredential_cases (P : Platform) (db : Collection) (req : Request) :
    (postCredential P db req).1 = db ∨
      ∃ doc, postCredential P db req = ((postCredential P db req).1, .created doc) := by
  unfold postCredential
  split
  · exact Or.inl rfl
  · split
    · exact Or.inl rfl
    · split
      · exact Or.inl rfl
      · simp only
        split
        · exact Or.inl rfl
        · exact Or.inr ⟨_, rfl⟩

/-- A PUT either leaves the collection as it was or is answered 200. -/
theorem putCredential_cases (P : Platform) (db : Collection) (req : Request) :
    (putCredential P db req).1 = db ∨
      ∃ doc, putCredential P db req = ((putCredential P db req).1, .ok doc) := by
  unfold putCredential
  split
  · exact Or.inl rfl
  · split
    · exact Or.inl rfl
    · exact Or.inl rfl
    · split
      · exact Or.inl rfl
      · split
        · exact Or.inl rfl
        · split
          · exact Or.inl rfl
          · simp only
            split
            · exact Or.inl rfl
            · exact Or.inr ⟨_, rfl⟩

/-- C9 (as amended). Stored envelope is one sealed unit. After every successful POST
and every successful PUT whose submitted password contains no unpaired surrogate, the
saved record is in the collection, its `passwordEncrypted` and `iv` are the two outputs
of one `encryptText` call on the submitted password under
`deriveKey(cookie token, req.user.id)`, and `decryptText` of the two under that key
returns the submitted password. Whatever the outcome of a POST or PUT, every record of
the resulting collection is a record that was there before or carries both outputs of
that one call: ciphertext and iv are never updated one without the other. -/
theorem C9_sealed_envelope (P : Platform) (db : Collection) (req : Request) (pw : JSString)
    (hpw : req.body.password = some pw) :
    (∀ db2 doc, postCredential P db req = (db2, .created doc) ∨
        putCredential P db req = (db2, .ok doc) →
      doc ∈ db2 ∧ ∃ key env,
        deriveKey P.lib P.secret P.now req.cookieToken req.userId = .ok key ∧
        encryptText P.cipher pw key P.randomBytes = .ok env ∧
        doc.passwordEncrypted = env.encrypted ∧ doc.iv = env.iv ∧
        (isWellFormed pw = true →
          decryptText P.cipher doc.passwordEncrypted doc.iv key = .ok pw)) ∧
    (∀ d, d ∈ (postCredential P db req).1 ∨ d ∈ (putCredential P db req).1 →
      d ∈ db ∨ ∃ key env,
        deriveKey P.lib P.secret P.now req.cookieToken req.userId = .ok key ∧
        encryptText P.cipher pw key P.randomBytes = .ok env ∧
        d.passwordEncrypted = env.encrypted ∧ d.iv = env.iv) := by
  have hget : req.body.password.getD [] = pw := by rw [hpw]; rfl
  have hseal : ∀ key env, encryptText P.cipher pw key P.randomBytes = .ok env →
      isWellFormed pw = true → decryptText P.cipher env.encrypted env.iv key = .ok pw := by
    intro key env henv hwf
    obtain ⟨hk, hr⟩ := encryptText_ok_lengths _ _ _ _ _ henv
    obtain ⟨env2, h1, h2⟩ := decryptText_encryptText P.cipher pw key P.randomBytes hk hr
    rw [henv] at h1
    cases h1
    rw [h2, utf8Decode_utf8Encode pw hwf]
  constructor
  · intro db2 doc h
    rcases h with h | h
    · obtain ⟨key, env, owner, hkey, henv, _, hd, hdb⟩ := postCredential_created P db db2 req doc h
      rw [hget] at henv
      refine ⟨by rw [hdb]; exact List.mem_append_right _ (List.mem_singleton.mpr rfl),
        key, env, hkey, henv, by rw [hd], by rw [hd], ?_⟩
      rw [hd]
      exact hseal key env henv
    · obtain ⟨c, key, env, owner, hfind, _, hkey, henv, _, hd, hdb⟩ :=
        putCredential_ok P db db2 req doc h
      rw [hget] at henv
      refine ⟨by rw [hdb]; exact mem_map_replace db c doc (findById_mem db _ c hfind),
        key, env, hkey, henv, by rw [hd], by rw [hd], ?_⟩
      rw [hd]
      exact hseal key env henv
  · intro d h
    rcases h with h | h
    · rcases postCredential_cases P db req with hc | ⟨doc, hc⟩
      · exact Or.inl (hc ▸ h)
      · obtain ⟨key, env, owner, hkey, henv, _, hd, hdb⟩ :=
          postCredential_created P db _ req doc hc
        rw [hget] at henv
        rw [hdb] at h
        rcases List.mem_append.mp h with h | h
        · exact Or.inl h
        · rw [List.mem_singleton.mp h]
          exact Or.inr ⟨key, env, hkey, henv, by rw [hd], by rw [hd]⟩
    · rcases putCredential_cases P db req with hc | ⟨doc, hc⟩
      · exact Or.inl (hc ▸ h)
      · obtain ⟨c, key, env, owner, _, _, hkey, henv, _, hd, hdb⟩ :=
          putCredential_ok P db _ req doc hc
        rw [hget] at henv
        rw [hdb] at h
        obtain ⟨d0, hd0, he⟩ := List.mem_map.mp h
        by_cases hid : d0._id = c._id
        · rw [if_pos hid] at he
          rw [← he]
          exact Or.inr ⟨key, env, hkey, henv, by rw [hd], by rw [hd]⟩
        · rw [if_neg hid] at he
          exact Or.inl (he ▸ hd0)

/-- C9, witness: the sample POST and the sample PUT of the password `"hunter2"` succeed,
and the saved record opens to `"hunter2"` under the derived key. -/
theorem C9_sealed_envelope_witness :
    (∃ db2 doc, postCredential samplePlatform [] (sampleRequest (js "hunter2")) =
        (db2, .created doc) ∧ doc ∈ db2 ∧ ∃ key env,
      deriveKey sampleKeyLib sampleSecret 5 (sampleRequest (js "hunter2")).cookieToken
        sampleUser = .ok key ∧
      encryptText shiftCipher (js "hunter2") key sampleIv = .ok env ∧
      doc.passwordEncrypted = env.encrypted ∧ doc.iv = env.iv ∧
      decryptText shiftCipher doc.passwordEncrypted doc.iv key = .ok (js "hunter2")) ∧
    (∃ db2 doc, putCredential samplePlatform [sampleStored] (sampleRequest (js "hunter2")) =
        (db2, .ok doc) ∧ doc ∈ db2 ∧ ∃ key env,
      deriveKey sampleKeyLib sampleSecret 5 (sampleRequest (js "hunter2")).cookieToken
        sampleUser = .ok key ∧
      encryptText shiftCipher (js "hunter2") key sampleIv = .ok env ∧
      doc.passwordEncrypted = env.encrypted ∧ doc.iv = env.iv ∧
      decryptText shiftCipher doc.passwordEncrypted doc.iv key = .ok (js "hunter2")) := by
  constructor
  · obtain ⟨hm, key, env, h1, h2, h3, h4, h5⟩ :=
      (C9_sealed_envelope samplePlatform [] (sampleRequest (js "hunter2")) (js "hunter2") rfl).1
        _ _ (Or.inl rfl)
    exact ⟨_, _, rfl, hm, key, env, h1, h2, h3, h4, h5 (by decide)⟩
  · obtain ⟨hm, key, env, h1, h2, h3, h4, h5⟩ :=
      (C9_sealed_envelope samplePlatform [sampleStored] (sampleRequest (js "hunter2"))
        (js "hunter2") rfl).1 _ _ (Or.inr rfl)
    exact ⟨_, _, rfl, hm, key, env, h1, h2, h3, h4, h5 (by decide)⟩

/-- C9, counterexample: the sample POST with the password `"\uD800"` (one unpaired
surrogate) is answered 201, and the saved envelope opens to `"\uFFFD"` under the derived
key, not to the submitted password. On no platform does a saved envelope of this
password open to it. -/
theorem C9_unpaired_surrogate_password :
    (∃ db2 doc key, postCredential samplePlatform [] (sampleRequest [unit16 0xD800]) =
        (db2, .created doc) ∧
      deriveKey sampleKeyLib sampleSecret 5 (sampleRequest [unit16 0xD800]).cookieToken
        sampleUser = .ok key ∧
      decryptText shiftCipher doc.passwordEncrypted doc.iv key = .ok [unit16 0xFFFD]) ∧
    ¬ ∃ (P : Platform) (db db2 : Collection) (req : Request) (doc : CredentialDoc) (key : Buffer),
      req.body.password = some [unit16 0xD800] ∧
      postCredential P db req = (db2, .created doc) ∧
      deriveKey P.lib P.secret P.now req.cookieToken req.userId = .ok key ∧
      decryptText P.cipher doc.passwordEncrypted doc.iv key = .ok [unit16 0xD800] := by
  refine ⟨⟨_, _, _, rfl, rfl, rfl⟩, ?_⟩
  rintro ⟨P, db, db2, req, doc, key, hpw, hpost, hkey, hdec⟩
  obtain ⟨key2, env, owner, hkey2, henv, _, hd, _⟩ := postCredential_created P db db2 req doc hpost
  rw [hkey] at hkey2
  cases hkey2
  rw [hpw] at henv
  obtain ⟨hk, hr⟩ := encryptText_ok_lengths _ _ _ _ _ henv
  obtain ⟨env2, h1, h2⟩ := decryptText_encryptText P.cipher [unit16 0xD800] key P.randomBytes hk hr
  rw [show (some [unit16 0xD800] : Option JSString).getD [] = [unit16 0xD800] from rfl] at henv
  rw [henv] at h1
  cases h1
  rw [hd] at hdec
  rw [hdec] at h2
  have hdu : utf8Decode (utf8Encode [unit16 0xD800]) = [unit16 0xFFFD] := by decide
  rw [hdu] at h2
  exact absurd (Except.ok.inj h2) (by decide)

/-- C10. The plaintext secret is never persisted: two POST requests, or two PUT
requests, that differ only in the submitted password (and in the random bytes drawn for
the IV) and that both succeed save records that agree on `_id`, `userId`, `website`,
`username` and `tags`, and leave collections that are equal once `passwordEncrypted`
and `iv` are blanked in every record: the password reaches the stored state only
through these two fields. -/
theorem C10_password_confined (P : Platform) (db db1 db2 : Collection) (req : Request)
    (pw1 pw2 : JSString) (rnd1 rnd2 : Buffer) (doc1 doc2 : CredentialDoc)
    (h : (postCredential (withRandomBytes P rnd1) db (withPassword req pw1) = (db1, .created doc1) ∧
          postCredential (withRandomBytes P rnd2) db (withPassword req pw2) = (db2, .created doc2)) ∨
         (putCredential (withRandomBytes P rnd1) db (withPassword req pw1) = (db1, .ok doc1) ∧
          putCredential (withRandomBytes P rnd2) db (withPassword req pw2) = (db2, .ok doc2))) :
    doc1._id = doc2._id ∧ doc1.userId = doc2.userId ∧ doc1.website = doc2.website ∧
    doc1.username = doc2.username ∧ doc1.tags = doc2.tags ∧
    db1.map eraseEnvelope = db2.map eraseEnvelope := by
  rcases h with ⟨h1, h2⟩ | ⟨h1, h2⟩
  · obtain ⟨_, _, o1, _, _, ho1, hd1, hdb1⟩ := postCredential_created _ _ _ _ _ h1
    obtain ⟨_, _, o2, _, _, ho2, hd2, hdb2⟩ := postCredential_created _ _ _ _ _ h2
    have ho : o1 = o2 := Option.some.inj (ho1.symm.trans ho2)
    subst ho
    have he : eraseEnvelope doc1 = eraseEnvelope doc2 := by rw [hd1, hd2]; rfl
    refine ⟨by rw [hd1, hd2]; rfl, by rw [hd1, hd2], by rw [hd1, hd2]; rfl, by rw [hd1, hd2]; rfl,
      by rw [hd1, hd2]; rfl, ?_⟩
    rw [hdb1, hdb2, List.map_append, List.map_append, List.map_singleton, List.map_singleton, he]
  · obtain ⟨c1, _, _, o1, hf1, _, _, _, ho1, hd1, hdb1⟩ := putCredential_ok _ _ _ _ _ h1
    obtain ⟨c2, _, _, o2, hf2, _, _, _, ho2, hd2, hdb2⟩ := putCredential_ok _ _ _ _ _ h2
    have hc : c1 = c2 := Option.some.inj (Option.some.inj (hf1.symm.trans hf2))
    subst hc
    have ho : o1 = o2 := Option.some.inj (ho1.symm.trans ho2)
    subst ho
    have he : eraseEnvelope doc1 = eraseEnvelope doc2 := by rw [hd1, hd2]; rfl
    refine ⟨by rw [hd1, hd2], by rw [hd1, hd2], by rw [hd1, hd2]; rfl, by rw [hd1, hd2]; rfl,
      by rw [hd1, hd2]; rfl, ?_⟩
    rw [hdb1, hdb2, List.map_map, List.map_map]
    apply List.map_congr_left
    intro d _
    simp only [Function.comp_apply]
    by_cases hid : d._id = c1._id
    · rw [if_pos hid, if_pos hid, he]
    · rw [if_neg hid, if_neg hid]

/-- C10, witness: the sample POST with the passwords `"hunter2"` and `"swordfish"` and two
different draws of random bytes. -/
theorem C10_password_confined_witness :
    ∃ db1 db2 doc1 doc2,
      postCredential (withRandomBytes samplePlatform sampleIv) []
        (withPassword (sampleRequest []) (js "hunter2")) = (db1, .created doc1) ∧
      postCredential (withRandomBytes samplePlatform (List.replicate 16 (byte 7))) []
        (withPassword (sampleRequest []) (js "swordfish")) = (db2, .created doc2) ∧
      doc1.passwordEncrypted ≠ doc2.passwordEncrypted ∧
      doc1._id = doc2._id ∧ doc1.userId = doc2.userId ∧ doc1.website = doc2.website ∧
      doc1.username = doc2.username ∧ doc1.tags = doc2.tags ∧
      db1.map eraseEnvelope = db2.map eraseEnvelope :=
  ⟨_, _, _, _, rfl, rfl, by decide,
    C10_password_confined samplePlatform [] _ _ (sampleRequest []) (js "hunter2") (js "swordfish")
      sampleIv (List.replicate 16 (byte 7)) _ _ (Or.inl ⟨rfl, rfl⟩)⟩

/-! ## Further claims about `deriveKey`, `encryptText` and `decryptText` -/

/-- Every failure of `deriveKey` is the one error of its `catch` block. -/
theorem deriveKey_error (lib : KeyLib) (secret token userId : JSString) (now : Nat)
    (e : VaultError) (h : deriveKey lib secret now token userId = .error e) :
    e = .keyDerivationFailed := by
  rw [deriveKey_eq] at h
  split at h
  · cases h
  · exact (Except.error.inj h).symm

/-- C11 (as amended). When the session token is invalid or expired, `deriveKey` fails
with the message `'Key derivation failed'`. This is the only message `deriveKey` has:
whatever made it fail, and however the platform words its own faults, the message is
`'Key derivation failed'` and never `'invalid session'`. -/
theorem C11_one_message (lib : KeyLib) (secret token userId : JSString) (now : Nat)
    (faultMessage : CryptoFault → String) :
    (lib.jwtVerify token secret now = none →
      ∃ e, deriveKey lib secret now token userId = .error e ∧
        e.message faultMessage = "Key derivation failed") ∧
    (∀ e, deriveKey lib secret now token userId = .error e →
      e.message faultMessage = "Key derivation failed" ∧
      e.message faultMessage ≠ "invalid session") := by
  constructor
  · intro h
    refine ⟨.keyDerivationFailed, ?_, rfl⟩
    rw [deriveKey_eq, h]
    rfl
  · intro e h
    rw [deriveKey_error lib secret token userId now e h]
    exact ⟨rfl, show "Key derivation failed" ≠ "invalid session" by decide⟩

/-- C11, counterexample: the sample token, expired at time 10 and used at time 15, makes
`deriveKey` fail with the message `'Key derivation failed'`, not `'invalid session'`. -/
theorem C11_invalid_session_message :
    ∃ e, deriveKey sampleKeyLib sampleSecret 15 sampleToken (js "u1") = .error e ∧
      e.message (fun _ => "") = "Key derivation failed" ∧
      e.message (fun _ => "") ≠ "invalid session" :=
  ⟨.keyDerivationFailed, by rw [deriveKey_eq, if_neg (by decide)], rfl, by decide⟩

/-- C14. For every token that verifies and every `userId`, `deriveKey` returns exactly
`pbkdf2Sync` of the UTF-8 bytes of the server secret followed by `userId`, with the
padded-`userId` salt, 100000 iterations, 32 bytes of output and SHA-256; the key has
exactly 32 bytes. -/
theorem C14_key_formula (lib : KeyLib) (secret token userId : JSString) (now : Nat)
    (h : (lib.jwtVerify token secret now).isSome) :
    deriveKey lib secret now token userId =
      .ok (lib.pbkdf2Sync (utf8Encode (secret ++ userId))
        (utf8Encode (slice (padStart userId 32 (unit16 48)) 32)) 100000 32 .sha256) ∧
    ∀ key, deriveKey lib secret now token userId = .ok key → key.length = 32 := by
  refine ⟨?_, fun key hk => deriveKey_length lib secret token userId now key hk⟩
  rw [deriveKey_eq, if_pos h]
  rfl

/-- C14, witness: the sample token of the user `"u1"` at time 5. -/
theorem C14_key_formula_witness :
    deriveKey sampleKeyLib sampleSecret 5 sampleToken (js "u1") =
      .ok (sampleKeyLib.pbkdf2Sync (utf8Encode (sampleSecret ++ js "u1"))
        (utf8Encode (slice (padStart (js "u1") 32 (unit16 48)) 32)) 100000 32 .sha256) ∧
    ∀ key, deriveKey sampleKeyLib sampleSecret 5 sampleToken (js "u1") = .ok key →
      key.length = 32 :=
  C14_key_formula sampleKeyLib sampleSecret sampleToken (js "u1") 5 (by decide)

/-- C15. PKCS#7 ciphertext length: for every plaintext, whose UTF-8 encoding has `n`
bytes, every 32-byte key and every draw of 16 random bytes, the `encrypted` string that
`encryptText` returns has exactly `32 * (n / 16 + 1)` characters; it has 32 for the
empty plaintext and 64 for a plaintext of exactly 16 bytes. -/
theorem C15_ciphertext_length (E : BlockCipher) (p : JSString) (key rnd : Buffer)
    (hk : key.length = 32) (hr : rnd.length = 16) :
    ∃ env, encryptText E p key rnd = .ok env ∧
      env.encrypted.length = 32 * ((utf8Encode p).length / 16 + 1) ∧
      (p = [] → env.encrypted.length = 32) ∧
      ((utf8Encode p).length = 16 → env.encrypted.length = 64) := by
  obtain ⟨r1, hf, _, _⟩ := cipher_roundtrip E key rnd (utf8Encode p) hk hr
  have hlen : (hexEncode (((CipherState.mk key rnd []).update E (utf8Encode p)).2 ++
      ((CipherState.mk key rnd []).update E (utf8Encode p)).1.final E)).length =
      32 * ((utf8Encode p).length / 16 + 1) := by
    rw [hexEncode_length, List.length_append, r1, hf]; omega
  refine ⟨_, encryptText_eq E p key rnd hk hr, hlen, ?_, ?_⟩
  · intro hp
    show (hexEncode _).length = 32
    rw [hlen, hp]
    rfl
  · intro hp
    show (hexEncode _).length = 64
    rw [hlen, hp]

/-- C15, witness: the empty plaintext, `"hunter2"` (7 bytes) and a plaintext of 16
bytes on the sample cipher. -/
theorem C15_ciphertext_length_witness :
    (∃ env, encryptText shiftCipher [] sampleKey sampleIv = .ok env ∧
      env.encrypted.length = 32 * ((utf8Encode []).length / 16 + 1) ∧
      ([] = ([] : JSString) → env.encrypted.length = 32) ∧
      ((utf8Encode []).length = 16 → env.encrypted.length = 64)) ∧
    (∃ env, encryptText shiftCipher (js "0123456789abcdef") sampleKey sampleIv = .ok env ∧
      env.encrypted.length = 32 * ((utf8Encode (js "0123456789abcdef")).length / 16 + 1) ∧
      (js "0123456789abcdef" = [] → env.encrypted.length = 32) ∧
      ((utf8Encode (js "0123456789abcdef")).length = 16 → env.encrypted.length = 64)) ∧
    (utf8Encode (js "0123456789abcdef")).length = 16 :=
  ⟨C15_ciphertext_length shiftCipher [] sampleKey sampleIv (by decide) (by decide),
   C15_ciphertext_length shiftCipher (js "0123456789abcdef") sampleKey sampleIv (by decide)
     (by decide), by decide⟩

/-- C19. `deriveKey` does not bind the token to `userId`: for any token that verifies,
whatever payload it decodes to (so also a token issued to another user), and any
`userId`, `deriveKey` succeeds and returns the same key as with any other token that
verifies (so also one issued to `userId`): the key computed from the server secret and
`userId`, in which the decoded payload does not occur. -/
theorem C19_token_not_bound (lib : KeyLib) (secret tokenA tokenB userB : JSString)
    (nowA nowB : Nat) (payloadA payloadB : JwtPayload)
    (hA : lib.jwtVerify tokenA secret nowA = some payloadA)
    (hB : lib.jwtVerify tokenB secret nowB = some payloadB) :
    deriveKey lib secret nowA tokenA userB = deriveKey lib secret nowB tokenB userB ∧
    deriveKey lib secret nowA tokenA userB =
      .ok (lib.pbkdf2Sync (utf8Encode (secret ++ userB)) (deriveSalt userB) 100000 32 .sha256) := by
  rw [deriveKey_eq, deriveKey_eq, hA, hB]
  exact ⟨rfl, rfl⟩

/-- C19, witness: the sample token of the user `"u1"` gives, for the user id `"u2"`, the
key that a token of `"u2"` gives. -/
theorem C19_token_not_bound_witness :
    deriveKey sampleKeyLib sampleSecret 5 sampleToken (js "u2") =
      deriveKey sampleKeyLib sampleSecret 7 (sampleSecret ++ [unit16 10] ++ js "u2") (js "u2") ∧
    deriveKey sampleKeyLib sampleSecret 5 sampleToken (js "u2") =
      .ok (sampleKeyLib.pbkdf2Sync (utf8Encode (sampleSecret ++ js "u2")) (deriveSalt (js "u2"))
        100000 32 .sha256) :=
  C19_token_not_bound sampleKeyLib sampleSecret sampleToken
    (sampleSecret ++ [unit16 10] ++ js "u2") (js "u2") 5 7
    { userId := js "u1", iat := 0, exp := 10 } { userId := js "u2", iat := 0, exp := 10 }
    (by decide) (by decide)

theorem utf16Decode_ascii : ∀ s : JSString, (∀ c ∈ s, c.val < 0x80) →
    utf16Decode s = s.map Fin.val
  | [], _ => rfl
  | c :: s, h => by
    have hc := h c (List.mem_cons_self _ _)
    rw [utf16Decode_cons_bmp c s (by omega),
      utf16Decode_ascii s (fun d hd => h d (List.mem_cons_of_mem _ hd))]
    rfl

/-- The UTF-8 bytes of an ASCII string: one byte for each code unit. -/
theorem utf8Encode_ascii : ∀ s : JSString, (∀ c ∈ s, c.val < 0x80) →
    utf8Encode s = s.map (fun c => byte c.val) := by
  intro s h
  rw [utf8Encode, utf16Decode_ascii s h]
  induction s with
  | nil => rfl
  | cons c s ih =>
    have hc := h c (List.mem_cons_self _ _)
    have e : utf8EncodeCodePoint c.val = [byte c.val] := by
      unfold utf8EncodeCodePoint; rw [if_pos hc]
    rw [List.map_cons, List.flatMap_cons, e, ih (fun d hd => h d (List.mem_cons_of_mem _ hd))]
    rfl

theorem padStart_slice_length (userId : JSString) :
    (slice (padStart userId 32 (unit16 48)) 32).length = 32 := by
  simp only [slice, padStart, List.length_take, List.length_append, List.length_replicate]
  omega

theorem padStart_slice_short (userId : JSString) (h : userId.length ≤ 32) :
    slice (padStart userId 32 (unit16 48)) 32 =
      List.replicate (32 - userId.length) (unit16 48) ++ userId := by
  unfold slice padStart
  apply List.take_of_length_le
  simp only [List.length_append, List.length_replicate]
  omega

theorem padStart_slice_long (userId : JSString) (h : 32 ≤ userId.length) :
    slice (padStart userId 32 (unit16 48)) 32 = userId.take 32 := by
  unfold slice padStart
  have : 32 - userId.length = 0 := by omega
  rw [this]
  rfl

/-- C13 (as amended). Salt construction: for every `userId` string the salt is the UTF-8
encoding of exactly 32 UTF-16 code units, which are `userId` left-padded with `'0'`
when it has at most 32 code units and its first 32 code units when it has more; when
`userId` is ASCII, the salt is exactly 32 bytes long, one byte for each of these code
units. -/
theorem C13_salt_construction (userId : JSString) :
    deriveSalt userId = utf8Encode (slice (padStart userId 32 (unit16 48)) 32) ∧
    (slice (padStart userId 32 (unit16 48)) 32).length = 32 ∧
    (userId.length ≤ 32 → slice (padStart userId 32 (unit16 48)) 32 =
      List.replicate (32 - userId.length) (unit16 48) ++ userId) ∧
    (32 ≤ userId.length → slice (padStart userId 32 (unit16 48)) 32 = userId.take 32) ∧
    ((∀ c ∈ userId, c.val < 0x80) →
      (deriveSalt userId).length = 32 ∧
      deriveSalt userId =
        (slice (padStart userId 32 (unit16 48)) 32).map (fun c => byte c.val)) := by
  refine ⟨rfl, padStart_slice_length userId, padStart_slice_short userId,
    padStart_slice_long userId, ?_⟩
  intro h
  have hall : ∀ c ∈ slice (padStart userId 32 (unit16 48)) 32, c.val < 0x80 := by
    intro c hc
    have hc2 := List.mem_of_mem_take hc
    rcases List.mem_append.mp hc2 with h1 | h1
    · rw [List.eq_of_mem_replicate h1]; decide
    · exact h c h1
  have e : deriveSalt userId =
      (slice (padStart userId 32 (unit16 48)) 32).map (fun c => byte c.val) :=
    utf8Encode_ascii _ hall
  exact ⟨by rw [e, List.length_map, padStart_slice_length], e⟩

/-- C13, counterexample: for the one-character user id `"é"` (U+00E9) the salt has 33
bytes: 31 bytes `'0'` and the two UTF-8 bytes of `é`. -/
theorem C13_salt_of_33_bytes : (deriveSalt [unit16 0xE9]).length = 33 := by decide

theorem isWellFormed_cons_bmp (c : CodeUnit) (s : JSString)
    (h : ¬ (0xD800 ≤ c.val ∧ c.val ≤ 0xDFFF)) :
    isWellFormed (c :: s) = isWellFormed s := by
  have hh : isHighSurrogate c = false := by
    simp only [isHighSurrogate, Bool.and_eq_false_iff, decide_eq_false_iff_not]; omega
  have hl : isLowSurrogate c = false := by
    simp only [isLowSurrogate, Bool.and_eq_false_iff, decide_eq_false_iff_not]; omega
  cases s with
  | nil => simp [isWellFormed, hh, hl]
  | cons v r => simp [isWellFormed, hh, hl]

theorem isWellFormed_pad (n : Nat) (s : JSString) :
    isWellFormed (List.replicate n (unit16 48) ++ s) = isWellFormed s := by
  induction n with
  | zero => rfl
  | succ n ih =>
    rw [List.replicate_succ, List.cons_append, isWellFormed_cons_bmp _ _ (by decide), ih]

/-- Well-formed strings with the same UTF-8 bytes are equal. -/
theorem utf8Encode_injective (s t : JSString) (hs : isWellFormed s = true)
    (ht : isWellFormed t = true) (h : utf8Encode s = utf8Encode t) : s = t := by
  have := congrArg utf8Decode h
  rwa [utf8Decode_utf8Encode s hs, utf8Decode_utf8Encode t ht] at this

/-- C17 (as amended). The salt is per-user among user ids of one length: for any two
different `userId` strings of the same length, at most 32, that contain no unpaired
surrogate (such as the 24-digit identifiers of the users), the salt built for one
differs from the salt built for the other. -/
theorem C17_salt_per_user (u1 u2 : JSString) (hne : u1 ≠ u2) (hlen : u1.length = u2.length)
    (h32 : u1.length ≤ 32) (h1 : isWellFormed u1 = true) (h2 : isWellFormed u2 = true) :
    deriveSalt u1 ≠ deriveSalt u2 := by
  intro h
  unfold deriveSalt at h
  rw [padStart_slice_short u1 h32, padStart_slice_short u2 (hlen ▸ h32), ← hlen] at h
  have := utf8Encode_injective _ _ (by rw [isWellFormed_pad]; exact h1)
    (by rw [isWellFormed_pad]; exact h2) h
  exact hne (List.append_cancel_left this)

/-- C17, witness: two user ids of 24 hexadecimal digits. -/
theorem C17_salt_per_user_witness :
    deriveSalt sampleUser ≠ deriveSalt (js "65f0c0ffee0123456789abce") :=
  C17_salt_per_user sampleUser (js "65f0c0ffee0123456789abce") (by decide) (by decide)
    (by decide) (by decide) (by decide)

/-- C17, counterexample: the different user ids `"1"` and `"01"` get the same salt, and
so do two different user ids of 33 characters with the same first 32. -/
theorem C17_salt_collision :
    js "1" ≠ js "01" ∧ deriveSalt (js "1") = deriveSalt (js "01") ∧
    js "0123456789abcdef0123456789abcdefA" ≠ js "0123456789abcdef0123456789abcdefB" ∧
    deriveSalt (js "0123456789abcdef0123456789abcdefA") =
      deriveSalt (js "0123456789abcdef0123456789abcdefB") := by
  decide

/-- The chaining block after `n` blocks: the last of them, or the IV when `n = 0`. -/
theorem cbcDecrypt_chain_eq (E : BlockCipher) (k : Buffer) : ∀ (n : Nat) (c d : Buffer),
    (cbcDecryptBlocks E k n c d).2 = if n = 0 then c else (d.drop (16 * (n - 1))).take 16
  | 0, _, _ => rfl
  | n + 1, c, d => by
    simp only [cbcDecryptBlocks]
    rw [cbcDecrypt_chain_eq E k n (d.take 16) (d.drop 16)]
    cases n with
    | zero => simp
    | succ m =>
      simp only [Nat.add_one_ne_zero, if_false, Nat.add_sub_cancel, List.drop_drop]
      rw [show 16 + 16 * m = 16 * (m + 1) by omega]

/-- The padding check of `decipher.final()` is the claim's validity of the padding. -/
theorem pkcs7Unpad_ok_iff (x : Buffer) :
    (∃ l, pkcs7Unpad x = .ok l) ↔ hasValidPadding x = true := by
  unfold pkcs7Unpad hasValidPadding
  cases x.getLast? with
  | none => simp
  | some v =>
    simp only
    by_cases c1 : v.val = 0 ∨ 16 < v.val
    · rw [if_pos c1]
      have : (decide (1 ≤ v.val) && decide (v.val ≤ 16)) = false := by
        simp only [Bool.and_eq_false_iff, decide_eq_false_iff_not]; omega
      simp [this]
    · rw [if_neg c1]
      have : (decide (1 ≤ v.val) && decide (v.val ≤ 16)) = true := by
        simp only [Bool.and_eq_true, decide_eq_true_eq]; omega
      rw [this, Bool.true_and]
      by_cases c2 : (x.drop (x.length - v.val)).all (fun b => b = v) = true
      · rw [if_pos c2, c2]; simp
      · rw [if_neg c2]
        simp only [Bool.not_eq_true] at c2
        rw [c2]; simp

/-- `decryptText` on a ciphertext string of even length that decodes to `n + 1` blocks. -/
theorem decryptText_of_blocks (E : BlockCipher) (encryptedData iv : JSString) (k : Buffer)
    (hk : k.length = 32) (hiv : (hexDecode iv).length = 16)
    (heven : encryptedData.length % 2 = 0) (n : Nat)
    (hct : (hexDecode encryptedData).length = 16 * (n + 1)) :
    decryptText E encryptedData iv k =
      match pkcs7Unpad (cbcFinalBlock E k (hexDecode iv) (hexDecode encryptedData)) with
      | .error e => .error (.decryptionFailed e)
      | .ok last => .ok (utf8Decode
          ((cbcDecryptBlocks E k n (hexDecode iv) (hexDecode encryptedData)).1 ++ last)) := by
  have hn : ((hexDecode encryptedData).length - 1) / 16 = n := by omega
  have hp : ((hexDecode encryptedData).drop (16 * n)).length = 16 := by
    rw [List.length_drop]; omega
  have hfb : cbcFinalBlock E k (hexDecode iv) (hexDecode encryptedData) =
      xorBytes (E.decryptBlock k ((hexDecode encryptedData).drop (16 * n)))
        (cbcDecryptBlocks E k n (hexDecode iv) (hexDecode encryptedData)).2 := by
    unfold cbcFinalBlock
    rw [cbcDecrypt_chain_eq, show (hexDecode encryptedData).length - 16 = 16 * n by omega]
    cases n with
    | zero => rw [if_pos (by omega)]; rfl
    | succ m =>
      rw [if_neg (by omega), if_neg (by omega),
        show (hexDecode encryptedData).length - 32 = 16 * (m + 1 - 1) by omega]
  simp only [decryptText, createCipheriv_ok k _ hk hiv]
  rw [if_neg (by omega)]
  simp only [CipherState.decipherUpdate, CipherState.decipherFinal, List.nil_append, hn]
  rw [if_neg (by rw [hp]; simp), hfb]
  cases pkcs7Unpad (xorBytes (E.decryptBlock k ((hexDecode encryptedData).drop (16 * n)))
      (cbcDecryptBlocks E k n (hexDecode iv) (hexDecode encryptedData)).2) with
  | error e => rfl
  | ok last => simp only [stringDecoder_write_end]

/-- C16. Padding is the only integrity signal: for every 32-byte key, every IV that
decodes to 16 bytes and every ciphertext string that decodes to `ct`, (1) when the
length of `ct` is a positive multiple of 16, `decryptText` fails if and only if the
CBC-decrypted final block does not end in valid PKCS#7 padding, and otherwise returns a
string, whichever key and IV sealed the envelope; (2) when the length of `ct` is zero or
not a multiple of 16, `decryptText` fails. A ciphertext string that does not decode
(one of odd length) makes `decryptText` fail as well. -/
theorem C16_padding_signal (E : BlockCipher) (encryptedData iv : JSString) (key : Buffer)
    (hk : key.length = 32) (hiv : (hexDecode iv).length = 16) :
    (∀ ct, decodeCiphertext encryptedData = some ct →
      (0 < ct.length → ct.length % 16 = 0 →
        ((∃ e, decryptText E encryptedData iv key = .error e) ↔
          hasValidPadding (cbcFinalBlock E key (hexDecode iv) ct) = false) ∧
        ((∃ s, decryptText E encryptedData iv key = .ok s) ↔
          hasValidPadding (cbcFinalBlock E key (hexDecode iv) ct) = true)) ∧
      (ct.length = 0 ∨ ct.length % 16 ≠ 0 →
        ∃ e, decryptText E encryptedData iv key = .error e)) ∧
    (decodeCiphertext encryptedData = none →
      decryptText E encryptedData iv key = .error (.decryptionFailed .invalidHexLength)) := by
  constructor
  · intro ct hct
    unfold decodeCiphertext at hct
    by_cases hodd : encryptedData.length % 2 ≠ 0
    · rw [if_pos hodd] at hct; cases hct
    · rw [if_neg hodd] at hct
      have hce : hexDecode encryptedData = ct := Option.some.inj hct
      have heven : encryptedData.length % 2 = 0 := by omega
      subst hce
      constructor
      · intro hpos hmul
        obtain ⟨n, hn⟩ : ∃ n, (hexDecode encryptedData).length = 16 * (n + 1) :=
          ⟨(hexDecode encryptedData).length / 16 - 1, by omega⟩
        have hiff :=
          pkcs7Unpad_ok_iff (cbcFinalBlock E key (hexDecode iv) (hexDecode encryptedData))
        rw [decryptText_of_blocks E encryptedData iv key hk hiv heven n hn]
        cases hu : pkcs7Unpad (cbcFinalBlock E key (hexDecode iv) (hexDecode encryptedData)) with
        | error e =>
          have hv : hasValidPadding (cbcFinalBlock E key (hexDecode iv) (hexDecode encryptedData))
              = false := by
            cases hb : hasValidPadding
              (cbcFinalBlock E key (hexDecode iv) (hexDecode encryptedData))
            · rfl
            · obtain ⟨l, hl⟩ := hiff.mpr hb
              rw [hu] at hl
              cases hl
          simp [hv]
        | ok last =>
          have hv := hiff.mp ⟨last, hu⟩
          simp [hv]
      · intro hbad
        simp only [decryptText, createCipheriv_ok key _ hk hiv]
        rw [if_neg hodd]
        simp only [CipherState.decipherUpdate, CipherState.decipherFinal, List.nil_append]
        rw [if_pos (by rw [List.length_drop]; omega)]
        exact ⟨_, rfl⟩
  · intro hnone
    unfold decodeCiphertext at hnone
    by_cases hodd : encryptedData.length % 2 ≠ 0
    · simp only [decryptText, createCipheriv_ok key _ hk hiv]
      rw [if_pos hodd]
    · rw [if_neg hodd] at hnone; cases hnone

/-- C16, witness: the sample envelope opens under the sample key and IV, where the
final block ends in valid padding, and fails under a key and IV that did not seal it,
where it does not. -/
theorem C16_padding_signal_witness :
    ((∃ s, decryptText shiftCipher sampleEnvelope.encrypted sampleEnvelope.iv sampleKey = .ok s) ∧
      hasValidPadding (cbcFinalBlock shiftCipher sampleKey (hexDecode sampleEnvelope.iv)
        (hexDecode sampleEnvelope.encrypted)) = true) ∧
    ((∃ e, decryptText shiftCipher sampleEnvelope.encrypted (js "000102030405060708090a0b0c0d0e0f")
        sampleKey2 = .error e) ∧
      hasValidPadding (cbcFinalBlock shiftCipher sampleKey2
        (hexDecode (js "000102030405060708090a0b0c0d0e0f"))
        (hexDecode sampleEnvelope.encrypted)) = false) :=
  ⟨⟨(((C16_padding_signal shiftCipher sampleEnvelope.encrypted sampleEnvelope.iv sampleKey
      (by decide) (by decide)).1 _ (by rfl)).1 (by decide) (by decide)).2.mpr (by decide),
    by decide⟩,
   ⟨(((C16_padding_signal shiftCipher sampleEnvelope.encrypted
      (js "000102030405060708090a0b0c0d0e0f") sampleKey2
      (by decide) (by decide)).1 _ (by rfl)).1 (by decide) (by decide)).1.mpr (by decide),
    by decide⟩⟩

/-- The sample ciphertext followed by one more character `'0'` has odd length:
`decryptText` rejects it, although `Buffer.from` would decode it to the same 16 bytes. -/
theorem odd_length_ciphertext_rejected :
    (hexDecode (sampleEnvelope.encrypted ++ js "0")).length = 16 ∧
    decodeCiphertext (sampleEnvelope.encrypted ++ js "0") = none ∧
    decryptText shiftCipher (sampleEnvelope.encrypted ++ js "0") sampleEnvelope.iv sampleKey =
      .error (.decryptionFailed .invalidHexLength) :=
  ⟨by decide, by decide, by rfl⟩

/-- The decoder gives a code unit the value of its low byte. -/
theorem unhex_low_byte (c : CodeUnit) : unhex (unit16 (c.val % 256)) = unhex c := by
  unfold unhex
  have h : (unit16 (c.val % 256)).val % 256 = c.val % 256 := by
    simp only [unit16]
    omega
  rw [h]

/-- `Buffer.from(s, 'hex')` reads the low byte of every code unit of `s`: a string and
the string of its low bytes decode to the same buffer. -/
theorem hexDecode_low_bytes : ∀ s : JSString,
    hexDecode (s.map fun c => unit16 (c.val % 256)) = hexDecode s
  | [] => rfl
  | [_] => rfl
  | c :: d :: rest => by
    simp only [List.map_cons, hexDecode, unhex_low_byte, hexDecode_low_bytes rest]

/-- `decryptText` reads the low byte of every code unit of the ciphertext and of the IV. -/
theorem decryptText_low_bytes (E : BlockCipher) (encryptedData iv : JSString) (key : Buffer) :
    decryptText E (encryptedData.map fun c => unit16 (c.val % 256))
      (iv.map fun c => unit16 (c.val % 256)) key = decryptText E encryptedData iv key := by
  simp only [decryptText, hexDecode_low_bytes, List.length_map]

/-- The sample envelope with the first character of the IV, `a`, replaced by U+0161 and
the last character of the ciphertext, `7`, replaced by U+0137: the IV still decodes to
the 16 sample bytes, the ciphertext to the 16 bytes it decoded to before, and
`decryptText` returns `"hunter2"`. -/
theorem high_code_units_read_as_digits :
    hexDecode (unit16 0x161 :: js "0a1a2a3a4a5a6a7a8a9aaabacadaeaf") = sampleIv ∧
    hexDecode (js "c9d5cdd8c2d895afa2a1a4a3a6a5a8a" ++ [unit16 0x137]) =
      hexDecode sampleEnvelope.encrypted ∧
    decryptText shiftCipher (js "c9d5cdd8c2d895afa2a1a4a3a6a5a8a" ++ [unit16 0x137])
      (unit16 0x161 :: js "0a1a2a3a4a5a6a7a8a9aaabacadaeaf") sampleKey = .ok (js "hunter2") :=
  ⟨by decide, by decide, by rfl⟩

/-! ## Failure and ownership in the credential routes -/

/-- C12. Generic failure and atomicity: when the handler of POST or PUT has reached
`deriveKey` (the body passed validation and, for PUT, the credential was found and
belongs to the caller) and `deriveKey` or `encryptText` fails, the response is status 500
with the fixed message of the route, whatever the error was, and the collection is left
as it was. -/
theorem C12_generic_failure (P : Platform) (db : Collection) (req : Request) (e : VaultError)
    (hv : validationErrors req.body = [])
    (hfail : deriveKey P.lib P.secret P.now req.cookieToken req.userId = .error e ∨
      ∃ key, deriveKey P.lib P.secret P.now req.cookieToken req.userId = .ok key ∧
        encryptText P.cipher (req.body.password.getD []) key P.randomBytes = .error e) :
    postCredential P db req = (db, .serverError "Failed to store credential") ∧
    (∀ c, findById db req.paramId = some (some c) → c.userId = req.userId →
      putCredential P db req = (db, .serverError "Failed to update credential")) := by
  constructor
  · unfold postCredential
    rw [if_neg (by rw [hv]; simp)]
    rcases hfail with h | ⟨key, h1, h2⟩
    · rw [h]
    · rw [h1]; simp only; rw [h2]
  · intro c hc ho
    unfold putCredential
    rw [if_neg (by rw [hv]; simp), hc]
    simp only
    rw [if_neg (by rw [ho]; simp)]
    rcases hfail with h | ⟨key, h1, h2⟩
    · rw [h]
    · rw [h1]; simp only; rw [h2]

/-- C12, witness: the sample requests at time 15, when the sample token has expired. -/
theorem C12_generic_failure_witness :
    postCredential { samplePlatform with now := 15 } [sampleStored] (sampleRequest (js "hunter2")) =
      ([sampleStored], .serverError "Failed to store credential") ∧
    putCredential { samplePlatform with now := 15 } [sampleStored] (sampleRequest (js "hunter2")) =
      ([sampleStored], .serverError "Failed to update credential") :=
  ⟨(C12_generic_failure { samplePlatform with now := 15 } [sampleStored]
      (sampleRequest (js "hunter2")) .keyDerivationFailed (by decide) (Or.inl (by rfl))).1,
   (C12_generic_failure { samplePlatform with now := 15 } [sampleStored]
      (sampleRequest (js "hunter2")) .keyDerivationFailed (by decide) (Or.inl (by rfl))).2
      sampleStored (by rfl) (by rfl)⟩

/-- C18 (as amended). Ownership check: for every DELETE, and every PUT whose body passes
validation, where `req.params.id` is a well-formed identifier and either no credential
has it or the credential's `userId` differs from `req.user.id`, the response is 404
`'Credential not found'`, the same in both cases, and the collection is left as it was.
The result is the same on every platform, so no derived key enters it. -/
theorem C18_ownership_check (P : Platform) (db : Collection) (req : Request)
    (hmiss : findById db req.paramId = some none ∨
      ∃ c, findById db req.paramId = some (some c) ∧ c.userId ≠ req.userId) :
    deleteCredential db req = (db, .notFound "Credential not found") ∧
    (validationErrors req.body = [] →
      putCredential P db req = (db, .notFound "Credential not found")) := by
  constructor
  · unfold deleteCredential
    rcases hmiss with h | ⟨c, h, hne⟩
    · rw [h]
    · rw [h]; simp only; rw [if_pos hne]
  · intro hv
    unfold putCredential
    rw [if_neg (by rw [hv]; simp)]
    rcases hmiss with h | ⟨c, h, hne⟩
    · rw [h]
    · rw [h]; simp only; rw [if_pos hne]

/-- C18, witness: another user asks to delete and to update the stored sample
credential; and the sample user asks for a credential of an empty collection. -/
theorem C18_ownership_check_witness :
    (deleteCredential [sampleStored]
        { sampleRequest (js "hunter2") with userId := js "0000000000000000000000aa" } =
      ([sampleStored], .notFound "Credential not found") ∧
     putCredential samplePlatform [sampleStored]
        { sampleRequest (js "hunter2") with userId := js "0000000000000000000000aa" } =
      ([sampleStored], .notFound "Credential not found")) ∧
    (deleteCredential [] (sampleRequest (js "hunter2")) = ([], .notFound "Credential not found") ∧
     putCredential samplePlatform [] (sampleRequest (js "hunter2")) =
      ([], .notFound "Credential not found")) :=
  ⟨⟨(C18_ownership_check samplePlatform [sampleStored]
        { sampleRequest (js "hunter2") with userId := js "0000000000000000000000aa" }
        (Or.inr ⟨sampleStored, by rfl, by decide⟩)).1,
    (C18_ownership_check samplePlatform [sampleStored]
        { sampleRequest (js "hunter2") with userId := js "0000000000000000000000aa" }
        (Or.inr ⟨sampleStored, by rfl, by decide⟩)).2 (by decide)⟩,
   ⟨(C18_ownership_check samplePlatform [] (sampleRequest (js "hunter2")) (Or.inl (by rfl))).1,
    (C18_ownership_check samplePlatform [] (sampleRequest (js "hunter2")) (Or.inl (by rfl))).2
      (by decide)⟩⟩

/-- C18, counterexample: on an empty collection, where no credential exists, a PUT with an
empty password is answered 400 by the validators, which run before the lookup; and a
DELETE or PUT whose identifier is not a well-formed `ObjectId` is answered 500, since
the lookup throws. -/
theorem C18_not_always_404 :
    putCredential samplePlatform [] (sampleRequest []) =
      ([], .badRequest ["Password is required"]) ∧
    deleteCredential [] { sampleRequest [] with paramId := js "nope" } =
      ([], .serverError "Failed to delete credential") ∧
    putCredential samplePlatform [] { sampleRequest (js "hunter2") with paramId := js "nope" } =
      ([], .serverError "Failed to update credential") :=
  ⟨by rfl, by rfl, by rfl⟩

/-! ## The tags of the credential form -/

theorem dropWhile_prefix_fixed (p : CodeUnit → Bool) : ∀ (a b : JSString),
    (a ++ b).dropWhile p = a ++ b → a.dropWhile p = a
  | [], _, _ => rfl
  | x :: a, b, h => by
    by_cases hx : p x = true
    · exfalso
      rw [List.cons_append, List.dropWhile_cons_of_pos hx] at h
      have h1 := congrArg List.length h
      have h2 := (List.dropWhile_suffix p (l := a ++ b)).length_le
      rw [h1] at h2
      simp at h2
    · rw [List.dropWhile_cons_of_neg hx]

/-- What `trim` returns starts with no white space. -/
theorem dropWhile_trim (s : JSString) : (trim s).dropWhile isWhiteSpace = trim s := by
  unfold trim
  have h := List.takeWhile_append_dropWhile isWhiteSpace (s.dropWhile isWhiteSpace).reverse
  have h2 : s.dropWhile isWhiteSpace =
      ((s.dropWhile isWhiteSpace).reverse.dropWhile isWhiteSpace).reverse ++
        ((s.dropWhile isWhiteSpace).reverse.takeWhile isWhiteSpace).reverse := by
    rw [← List.reverse_append, h, List.reverse_reverse]
  apply dropWhile_prefix_fixed isWhiteSpace _
    ((s.dropWhile isWhiteSpace).reverse.takeWhile isWhiteSpace).reverse
  rw [← h2, List.dropWhile_idempotent]

/-- `trim` leaves a trimmed string as it is. -/
theorem trim_trim (s : JSString) : trim (trim s) = trim s := by
  show (((trim s).dropWhile isWhiteSpace).reverse.dropWhile isWhiteSpace).reverse = trim s
  rw [dropWhile_trim]
  unfold trim
  rw [List.reverse_reverse, List.dropWhile_idempotent]

/-- A tag list extended by tags that are trimmed, not empty and not in the list. -/
theorem tags_append (tags added : List JSString) (hnb : NoBlankTags tags)
    (hadd : ∀ t ∈ added, t ∉ tags ∧ trim t = t ∧ t ≠ []) :
    NoBlankTags (tags ++ added) ∧ AddedTrimmed tags (tags ++ added) := by
  constructor
  · intro t ht
    rcases List.mem_append.mp ht with h | h
    · exact hnb t h
    · rw [(hadd t h).2.1]; exact (hadd t h).2.2
  · intro t ht
    rcases List.mem_append.mp ht with h | h
    · exact Or.inl h
    · exact Or.inr (hadd t h).2.1

theorem tags_append_one (tags : List JSString) (x : JSString) (hnd : tags.Nodup)
    (hnb : NoBlankTags tags) :
    (if trim x ≠ [] ∧ trim x ∉ tags then tags ++ [trim x] else tags).Nodup ∧
    NoBlankTags (if trim x ≠ [] ∧ trim x ∉ tags then tags ++ [trim x] else tags) ∧
    AddedTrimmed tags (if trim x ≠ [] ∧ trim x ∉ tags then tags ++ [trim x] else tags) := by
  by_cases h : trim x ≠ [] ∧ trim x ∉ tags
  · rw [if_pos h]
    have h2 := tags_append tags [trim x] hnb (by
      intro t ht
      rw [List.mem_singleton.mp ht]
      exact ⟨h.2, trim_trim x, h.1⟩)
    refine ⟨?_, h2.1, h2.2⟩
    rw [List.nodup_append]
    refine ⟨hnd, List.nodup_singleton _, ?_⟩
    intro a ha hb
    rw [List.mem_singleton.mp hb] at ha
    exact h.2 ha
  · rw [if_neg h]
    exact ⟨hnd, hnb, fun _ ht => Or.inl ht⟩

theorem tags_sublist (tags sub : List JSString) (hs : sub.Sublist tags) (hnd : tags.Nodup)
    (hnb : NoBlankTags tags) : sub.Nodup ∧ NoBlankTags sub ∧ AddedTrimmed tags sub :=
  ⟨hnd.sublist hs, fun t ht => hnb t (hs.subset ht), fun _ ht => Or.inl (hs.subset ht)⟩

theorem addTag_tags (st : ModalState) :
    (addTag st).formData.tags =
      if trim st.tagInput ≠ [] ∧ trim st.tagInput ∉ st.formData.tags then
        st.formData.tags ++ [trim st.tagInput]
      else st.formData.tags := by
  unfold addTag
  simp only
  split <;> rfl

/-- What `handleTagInputChange` does to the tags: it appends tags that are trimmed, not
empty and not among the tags of the form. -/
theorem handleTagInputChange_tags (st : ModalState) (value : JSString) :
    ∃ added, (handleTagInputChange st value).formData.tags = st.formData.tags ++ added ∧
      (∀ t ∈ added, t ∉ st.formData.tags ∧ trim t = t ∧ t ≠ []) ∧
      ((endsWith value comma = true ∨ comma ∉ value) → added.length ≤ 1) := by
  unfold handleTagInputChange
  by_cases h1 : endsWith value comma = true
  · rw [if_pos h1]
    simp only
    by_cases h2 : trim value.dropLast ≠ [] ∧ trim value.dropLast ∉ st.formData.tags
    · rw [if_pos h2]
      refine ⟨[trim value.dropLast], rfl, ?_, fun _ => by simp⟩
      intro t ht
      rw [List.mem_singleton.mp ht]
      exact ⟨h2.2, trim_trim _, h2.1⟩
    · rw [if_neg h2]
      exact ⟨[], by simp, by simp, fun _ => by simp⟩
  · rw [if_neg h1]
    by_cases h3 : comma ∈ value
    · rw [if_pos h3]
      simp only
      have hprop : ∀ t ∈ ((split comma value).dropLast.map trim).filter
          (fun tag => decide (tag.length > 0) && decide (tag ∉ st.formData.tags)),
          t ∉ st.formData.tags ∧ trim t = t ∧ t ≠ [] := by
        intro t ht
        obtain ⟨hm, hf⟩ := List.mem_filter.mp ht
        obtain ⟨x, _, hx⟩ := List.mem_map.mp hm
        simp only [Bool.and_eq_true, decide_eq_true_eq] at hf
        refine ⟨hf.2, by rw [← hx, trim_trim], ?_⟩
        intro he
        rw [he] at hf
        simp at hf
      split
      · exact ⟨_, rfl, hprop, fun hc => by rcases hc with hc | hc <;> contradiction⟩
      · exact ⟨[], by simp, by simp, fun _ => by simp⟩
    · rw [if_neg h3]
      exact ⟨[], by simp, by simp, fun _ => by simp⟩

/-- The invariant of the tag list of the credential form. Starting from a tag
list that has no duplicates and no empty or whitespace-only entry, every tag operation
(`handleTagInputChange` with any value, a key in `handleTagInputKeyDown`, `addTag`,
`removeTag`, and the tag list `handleSubmit` hands to `onSave`) yields a tag list that has
no empty or whitespace-only entry and in which every added tag is trimmed; and every
operation other than `handleTagInputChange` with pasted text (a value that contains a
comma and does not end with one) yields a tag list without duplicates. The tags added
from pasted text are trimmed, not empty and not among the tags of the form. -/
theorem tag_list_invariant (st : ModalState) (value key tagToRemove : JSString)
    (hnd : st.formData.tags.Nodup) (hnb : NoBlankTags st.formData.tags) :
    (∀ tags ∈ [(handleTagInputChange st value).formData.tags,
        (handleTagInputKeyDown st key).formData.tags, (addTag st).formData.tags,
        (removeTag st tagToRemove).formData.tags, (handleSubmit st).tags],
      NoBlankTags tags ∧ AddedTrimmed st.formData.tags tags) ∧
    (∀ tags ∈ [(handleTagInputKeyDown st key).formData.tags, (addTag st).formData.tags,
        (removeTag st tagToRemove).formData.tags, (handleSubmit st).tags],
      tags.Nodup) ∧
    (endsWith value comma = true ∨ comma ∉ value →
      (handleTagInputChange st value).formData.tags.Nodup) ∧
    (∃ added, (handleTagInputChange st value).formData.tags = st.formData.tags ++ added ∧
      ∀ t ∈ added, t ∉ st.formData.tags ∧ trim t = t ∧ t ≠ []) := by
  -- the operations one by one
  obtain ⟨added, hch, hadd, hone⟩ := handleTagInputChange_tags st value
  have hAdd := tags_append_one st.formData.tags st.tagInput hnd hnb
  rw [← addTag_tags] at hAdd
  have hSame : st.formData.tags.Nodup ∧ NoBlankTags st.formData.tags ∧
      AddedTrimmed st.formData.tags st.formData.tags := ⟨hnd, hnb, fun _ ht => Or.inl ht⟩
  have hKey : (handleTagInputKeyDown st key).formData.tags.Nodup ∧
      NoBlankTags (handleTagInputKeyDown st key).formData.tags ∧
      AddedTrimmed st.formData.tags (handleTagInputKeyDown st key).formData.tags := by
    unfold handleTagInputKeyDown
    split
    · exact hAdd
    · split
      · exact hAdd
      · split
        · exact tags_sublist _ _ (List.dropLast_sublist _) hnd hnb
        · exact hSame
  have hRem : (removeTag st tagToRemove).formData.tags.Nodup ∧
      NoBlankTags (removeTag st tagToRemove).formData.tags ∧
      AddedTrimmed st.formData.tags (removeTag st tagToRemove).formData.tags :=
    tags_sublist _ _ (List.filter_sublist _) hnd hnb
  have hSub : (handleSubmit st).tags.Nodup ∧ NoBlankTags (handleSubmit st).tags ∧
      AddedTrimmed st.formData.tags (handleSubmit st).tags := by
    have h := tags_append_one st.formData.tags st.tagInput hnd hnb
    unfold handleSubmit
    by_cases h1 : trim st.tagInput ≠ []
    · rw [if_pos h1]
      simp only
      by_cases h2 : trim st.tagInput ∉ st.formData.tags
      · rw [if_pos ⟨h1, h2⟩] at h
        rw [if_pos h2]
        exact h
      · rw [if_neg h2]
        exact hSame
    · rw [if_neg h1]
      exact hSame
  have hChange := tags_append st.formData.tags added hnb hadd
  rw [← hch] at hChange
  refine ⟨?_, ?_, ?_, ⟨added, hch, hadd⟩⟩
  · intro tags ht
    simp only [List.mem_cons, List.mem_singleton, List.not_mem_nil, or_false] at ht
    rcases ht with h | h | h | h | h <;> rw [h]
    · exact hChange
    · exact hKey.2
    · exact hAdd.2
    · exact hRem.2
    · exact hSub.2
  · intro tags ht
    simp only [List.mem_cons, List.mem_singleton, List.not_mem_nil, or_false] at ht
    rcases ht with h | h | h | h <;> rw [h]
    · exact hKey.1
    · exact hAdd.1
    · exact hRem.1
    · exact hSub.1
  · intro hv
    rw [hch, List.nodup_append]
    have hlen := hone hv
    refine ⟨hnd, ?_, ?_⟩
    · match added, hlen with
      | [], _ => exact List.nodup_nil
      | [t], _ => exact List.nodup_singleton t
    · intro a ha hb
      exact (hadd a hb).1 ha

/-- C20, the failing input. With no tags in the form, which is a tag list without
duplicates and without empty entries, the pasted text `"a,a,b"` makes
`handleTagInputChange` add the tag `"a"` twice and leave `"b"` in the tag field: the
pasted tags are checked against the tags of the form, not against each other. -/
theorem C20_paste_duplicates :
    ([] : List JSString).Nodup ∧ (∀ t ∈ ([] : List JSString), t ≠ []) ∧
    endsWith (js "a,a,b") comma = false ∧ comma ∈ js "a,a,b" ∧
    (handleTagInputChange (sampleForm [] []) (js "a,a,b")).formData.tags = [js "a", js "a"] ∧
    (handleTagInputChange (sampleForm [] []) (js "a,a,b")).tagInput = js "b" ∧
    ¬ (handleTagInputChange (sampleForm [] []) (js "a,a,b")).formData.tags.Nodup := by
  decide

/-! ## The filter of the dashboard -/

/-- `includes` is the substring relation. -/
theorem includes_iff_infix : ∀ (s sub : JSString), includes s sub = true ↔ sub <:+: s
  | [], sub => by
    rw [includes, List.isPrefixOf_iff_prefix, List.prefix_nil, List.infix_nil]
  | c :: rest, sub => by
    rw [includes, Bool.or_eq_true, List.isPrefixOf_iff_prefix, includes_iff_infix rest sub,
      List.infix_cons_iff]

/-- The test of the first `filter` of `filterCredentials` is the claim's condition on
the search. -/
theorem searchTest_iff (toLowerCase : JSString → JSString) (search : JSString)
    (cred : CredentialDoc) :
    (includes (toLowerCase cred.website) (toLowerCase search) ||
      includes (toLowerCase cred.username) (toLowerCase search) ||
      cred.tags.any (fun tag => includes (toLowerCase tag) (toLowerCase search))) = true ↔
    (toLowerCase search <:+: toLowerCase cred.website ∨
      toLowerCase search <:+: toLowerCase cred.username ∨
      ∃ tag ∈ cred.tags, toLowerCase search <:+: toLowerCase tag) := by
  simp only [Bool.or_eq_true, List.any_eq_true, includes_iff_infix, or_assoc]

/-- C21. Dashboard filtering: for every credential list, search string and
`selectedTag`, `filterCredentials` produces exactly the credentials, in their original
order, that (when `search` is not empty) have the lowercased search as a substring of
the lowercased website, of the lowercased username or of some lowercased tag, and (when
`selectedTag` is not empty) have `selectedTag` itself among their tags; when both are
empty the result is the whole list. -/
theorem C21_dashboard_filter (toLowerCase : JSString → JSString)
    (credentials : List CredentialDoc) (search selectedTag : JSString) :
    filterCredentials toLowerCase credentials search selectedTag =
      credentials.filter (fun cred => decide (MatchesFilter toLowerCase search selectedTag cred)) ∧
    (filterCredentials toLowerCase credentials search selectedTag).Sublist credentials ∧
    (∀ cred, cred ∈ filterCredentials toLowerCase credentials search selectedTag ↔
      cred ∈ credentials ∧ MatchesFilter toLowerCase search selectedTag cred) ∧
    (search = [] → selectedTag = [] →
      filterCredentials toLowerCase credentials search selectedTag = credentials) := by
  have heq : filterCredentials toLowerCase credentials search selectedTag =
      credentials.filter
        (fun cred => decide (MatchesFilter toLowerCase search selectedTag cred)) := by
    unfold filterCredentials
    simp only
    by_cases hs : search ≠ []
    · by_cases ht : selectedTag ≠ []
      · rw [if_pos hs, if_pos ht, List.filter_filter]
        apply List.filter_congr
        intro cred _
        rw [Bool.eq_iff_iff]
        simp only [Bool.and_eq_true, decide_eq_true_eq, MatchesFilter, searchTest_iff]
        exact ⟨fun h => ⟨fun _ => h.2, fun _ => h.1⟩, fun h => ⟨h.2 ht, h.1 hs⟩⟩
      · rw [if_pos hs, if_neg ht]
        apply List.filter_congr
        intro cred _
        rw [Bool.eq_iff_iff]
        simp only [decide_eq_true_eq, MatchesFilter, searchTest_iff]
        exact ⟨fun h => ⟨fun _ => h, fun h2 => absurd h2 ht⟩, fun h => h.1 hs⟩
    · by_cases ht : selectedTag ≠ []
      · rw [if_neg hs, if_pos ht]
        apply List.filter_congr
        intro cred _
        rw [Bool.eq_iff_iff]
        simp only [decide_eq_true_eq, MatchesFilter]
        exact ⟨fun h => ⟨fun h2 => absurd h2 hs, fun _ => h⟩, fun h => h.2 ht⟩
      · rw [if_neg hs, if_neg ht]
        symm
        rw [List.filter_eq_self]
        intro cred _
        simp only [decide_eq_true_eq, MatchesFilter]
        exact ⟨fun h2 => absurd h2 hs, fun h2 => absurd h2 ht⟩
  refine ⟨heq, by rw [heq]; exact List.filter_sublist _, ?_, ?_⟩
  · intro cred
    rw [heq, List.mem_filter, decide_eq_true_eq]
  · intro hs ht
    subst hs
    subst ht
    simp [filterCredentials]

/-- C21, witness: of the two sample credentials, the search `"BANK"` keeps the bank, and so
does the search `"mon"` with the tag `"Money"` selected; with the tag `"money"` selected
nothing is kept. -/
theorem C21_dashboard_filter_witness :
    filterCredentials asciiLower [sampleStored, sampleBank] (js "BANK") [] = [sampleBank] ∧
    filterCredentials asciiLower [sampleStored, sampleBank] (js "mon") (js "Money") =
      [sampleBank] ∧
    filterCredentials asciiLower [sampleStored, sampleBank] (js "mon") (js "money") = [] ∧
    filterCredentials asciiLower [sampleStored, sampleBank] [] [] = [sampleStored, sampleBank] :=
  ⟨(C21_dashboard_filter asciiLower [sampleStored, sampleBank] (js "BANK") []).1.trans
      (by decide),
   (C21_dashboard_filter asciiLower [sampleStored, sampleBank] (js "mon") (js "Money")).1.trans
      (by decide),
   (C21_dashboard_filter asciiLower [sampleStored, sampleBank] (js "mon") (js "money")).1.trans
      (by decide),
   (C21_dashboard_filter asciiLower [sampleStored, sampleBank] [] []).2.2.2 rfl rfl⟩

end SecurePassVault
